import Mathlib

/-!
Verification of the Plexus embedded telemetry C SDK (plexus-oss/c-sdk).

This file gives a shallow embedding, in Lean 4, of the parts of the SDK core
that the specification claims talk about:

* `src/src/plexus.c` — metric queue (`add_metric`), flush/retry engine
  (`plexus_flush`, `compute_backoff`, `backoff_rand`, `tick_elapsed`),
  persistent ring buffer (push block of `plexus_flush` and the drain loop),
  scheduler (`plexus_tick`), CRC32 (`plexus_crc32`), identifier validation
  (`plexus_internal_is_url_safe`, `is_valid_metric_name`).
* `src/src/plexus_json.c` — the wire codec (`plexus_json_serialize`,
  `json_append_escaped`, `plexus_json_extract_string`).
* `src/src/plexus_commands.c` — the command-poll pipeline
  (`plexus_poll_commands`).

Modelling conventions:

* C byte strings are `List Nat` (the bytes of the string up to the NUL).
* All `uint32_t` arithmetic is `Nat` arithmetic reduced `% 2^32` exactly where
  the C overflows.
* The HAL is an oracle (`Hal`): `post n` is the result of the n-th HTTP post
  performed inside one API call, `tick n` the value returned by the n-th
  `plexus_hal_get_tick_ms()` call, `wallMs` the wall clock.
* `double` formatting (`snprintf "%.10g"`) is not embedded; a queued number
  carries the already formatted byte string produced by `json_append_number`
  (theorems that depend on its content state their assumption — the `%g`
  output never contains a quote character — as an explicit hypothesis).
* Fallible operations return `Option` or an error code (`PErr`).
-/

set_option maxRecDepth 4000

namespace Plexus

/-! ## Compile-time configuration (include/plexus_config.h, default values) -/

def PLEXUS_MAX_METRICS : Nat := 32

def PLEXUS_MAX_METRIC_NAME_LEN : Nat := 64

def PLEXUS_MAX_STRING_VALUE_LEN : Nat := 128

def PLEXUS_JSON_BUFFER_SIZE : Nat := 2048

def PLEXUS_MAX_RETRIES : Nat := 3

def PLEXUS_RETRY_BASE_MS : Nat := 500

def PLEXUS_RETRY_MAX_MS : Nat := 8000

def PLEXUS_RATE_LIMIT_COOLDOWN_MS : Nat := 30000

def PLEXUS_AUTO_FLUSH_COUNT : Nat := 16

def PLEXUS_AUTO_FLUSH_INTERVAL_MS : Nat := 5000

def PLEXUS_PERSIST_MAX_BATCHES : Nat := 8

/-- Modulus of `uint32_t` arithmetic. -/
def U32 : Nat := 4294967296

/-- Error codes (`plexus_err_t`), restricted to the constructors the core
implementation in plexus.c actually produces or tests. -/
inductive PErr where
  | ok
  | nullPtr
  | bufferFull
  | stringTooLong
  | noData
  | network
  | auth
  | rateLimit
  | server
  | json
  | notInitialized
  | hal
  | invalidArg
  deriving DecidableEq, Repr

/-! ## Wraparound-safe deadline comparison (plexus.c, tick_elapsed) -/

/-- Embedding of `tick_elapsed(uint32_t now, uint32_t deadline)`:
`(int32_t)(now - deadline) >= 0`.  The `uint32_t` subtraction is
`(now + 2^32 - deadline) % 2^32`; reinterpreting that value as `int32_t`
is non-negative exactly when it is below `2^31`. -/
def tickElapsed (now deadline : Nat) : Bool :=
  (now % U32 + U32 - deadline % U32) % U32 < 2147483648

/-! ## String helpers -/

/-- Bytes of a string literal (ASCII); C strings are modelled as the list of
their bytes up to the terminating NUL. -/
def strB (s : String) : List Nat := s.toList.map Char.toNat

/-- Embedding of `plexus_internal_is_url_safe` (plexus.c lines 138-151):
non-empty and every character in `[a-zA-Z0-9._-]`. -/
def isUrlSafeChar (c : Nat) : Bool :=
  (97 ≤ c && c ≤ 122) || (65 ≤ c && c ≤ 90) || (48 ≤ c && c ≤ 57) ||
  c = 46 || c = 95 || c = 45

def isUrlSafe (s : List Nat) : Bool :=
  !s.isEmpty && s.all isUrlSafeChar

/-- Embedding of `is_valid_metric_name` (plexus.c lines 158-169): non-empty
and every byte printable ASCII `0x20..0x7E`. -/
def isValidMetricName (s : List Nat) : Bool :=
  !s.isEmpty && s.all (fun c => 32 ≤ c && c ≤ 126)

/-! ## CRC32 (plexus.c, plexus_crc32 — bitwise, IEEE 802.3 polynomial) -/

/-- One inner-loop step of `plexus_crc32`: shift right, conditionally xor the
reflected polynomial `0xEDB88320`. -/
def crc32Round (c : Nat) : Nat :=
  if c % 2 = 1 then (c / 2) ^^^ 0xEDB88320 else c / 2

/-- Eight inner-loop iterations. -/
def crc32Bits : Nat → Nat → Nat
  | 0, c => c
  | n + 1, c => crc32Bits n (crc32Round c)

/-- Process one input byte: `crc ^= p[i]` then eight bit rounds. -/
def crc32Byte (c b : Nat) : Nat := crc32Bits 8 (c ^^^ b)

def crc32Go : List Nat → Nat → Nat
  | [], c => c
  | b :: t, c => crc32Go t (crc32Byte c b)

/-- Embedding of `plexus_crc32`: start from `0xFFFFFFFF`, fold the bytes,
complement the result (`~crc` on `uint32_t` is xor with `0xFFFFFFFF`). -/
def crc32 (data : List Nat) : Nat := 0xFFFFFFFF ^^^ crc32Go data 0xFFFFFFFF

/-! ## Retry backoff (plexus.c, backoff_rand and compute_backoff) -/

/-- Embedding of `backoff_rand` (xorshift32).  The C shifts act on `uint32_t`,
so each left shift is reduced `% 2^32`. -/
def backoffRand (seed : Nat) : Nat :=
  let s1 := (seed ^^^ (seed <<< 13)) % U32
  let s2 := s1 ^^^ (s1 >>> 17)
  (s2 ^^^ (s2 <<< 5)) % U32

/-- First half of `compute_backoff`: the update of `client->retry_backoff_ms`
(start at `PLEXUS_RETRY_BASE_MS`, then double and cap at
`PLEXUS_RETRY_MAX_MS`). -/
def nextBackoff (b : Nat) : Nat :=
  if b = 0 then PLEXUS_RETRY_BASE_MS
  else
    let d := (b * 2) % U32
    if d > PLEXUS_RETRY_MAX_MS then PLEXUS_RETRY_MAX_MS else d

/-- Second half of `compute_backoff`: apply ±25% jitter to the updated
backoff `b2`.  `seedTick` is the `plexus_hal_get_tick_ms()` reading used to
seed the PRNG (read only when `jitter_range > 0`). -/
def backoffDelay (b2 seedTick : Nat) : Nat :=
  let range := b2 / 4
  if range > 0 then
    b2 - range + backoffRand ((seedTick % U32) ^^^ b2) % (range * 2)
  else b2

/-! ## Wire codec: serialization (plexus_json.c) -/

/-- Hex digit of `snprintf "%04x"` (lowercase). -/
def hexDig (d : Nat) : Nat := if d < 10 then 48 + d else 87 + d

/-- Bytes emitted by the body of `json_append_escaped` for one input byte
(the switch on lines 66-84 of plexus_json.c): quote and backslash get a
backslash escape, the five named control characters get their short escapes,
any other byte below `0x20` becomes `\u00XX`, anything else is copied. -/
def escChunk (c : Nat) : List Nat :=
  if c = 34 then [92, 34]
  else if c = 92 then [92, 92]
  else if c = 8 then [92, 98]
  else if c = 12 then [92, 102]
  else if c = 10 then [92, 110]
  else if c = 13 then [92, 114]
  else if c = 9 then [92, 116]
  else if c < 32 then [92, 117, 48, 48, hexDig (c / 16), hexDig (c % 16)]
  else [c]

/-- Escaped interior of a string (everything `json_append_escaped` writes
between the two structural quotes). -/
def escBody : List Nat → List Nat
  | [] => []
  | c :: t => escChunk c ++ escBody t

/-- Full output of `json_append_escaped`: quote, escaped body, quote. -/
def esc (s : List Nat) : List Nat := 34 :: escBody s ++ [34]

/-- Decimal digits of `snprintf "%llu"` (json_append_uint64), via fuel
recursion on the value. -/
def toDecGo : Nat → Nat → List Nat
  | 0, _ => []
  | fuel + 1, n => if n < 10 then [48 + n] else toDecGo fuel (n / 10) ++ [48 + n % 10]

def toDec (n : Nat) : List Nat := toDecGo (n + 1) n

/-- Tagged metric value.  A number carries the byte string produced by
`json_append_number` (`%.10g`, or `null` for NaN/Infinity): the floating
point formatting itself is not embedded, so theorems that depend on the
shape of that byte string assume it explicitly. -/
inductive PVal where
  | num (repr : List Nat)
  | str (s : List Nat)
  | bval (b : Bool)
  deriving DecidableEq, Repr

/-- A queued metric record (`plexus_metric_t`). -/
structure Metric where
  name : List Nat
  value : PVal
  timestampMs : Nat
  tags : List (List Nat × List Nat)
  deriving DecidableEq, Repr

/-- Value part of one point (`switch (m->value.type)` in
plexus_json_serialize). -/
def valueJson : PVal → List Nat
  | .num r => r
  | .str s => esc s
  | .bval b => if b then strB "true" else strB "false"

/-- Tag map body: `"key":"value"` pairs joined by commas. -/
def tagsJson (tags : List (List Nat × List Nat)) : List Nat :=
  (tags.map (fun kv => esc kv.1 ++ [58] ++ esc kv.2)).intersperse [44] |>.flatten

/-- One element of the `points` array (the body of the serialization loop,
plexus_json.c lines 154-211). -/
def pointJson (sid : List Nat) (m : Metric) : List Nat :=
  strB "\x7b\"metric\":" ++ esc m.name ++
  strB ",\"value\":" ++ valueJson m.value ++
  (if m.timestampMs > 0 then strB ",\"timestamp\":" ++ toDec m.timestampMs else []) ++
  strB ",\"source_id\":" ++ esc sid ++
  (if m.tags.length > 0 then strB ",\"tags\":\x7b" ++ tagsJson m.tags ++ [125] else []) ++
  [125]

/-- Whole envelope written by `plexus_json_serialize` (the SDK version string
is the one in src/src/plexus.h, which the core includes). -/
def serializeBody (sid : List Nat) (ms : List Metric) : List Nat :=
  strB "\x7b\"sdk\":\"c/0.5.6\",\"points\":[" ++
  ((ms.map (pointJson sid)).intersperse [44]).flatten ++
  strB "]\x7d"

/-- Embedding of `plexus_json_serialize` against a buffer of
`PLEXUS_JSON_BUFFER_SIZE` bytes: the incremental `json_append` overflow check
(`pos + len >= size`, keeping one byte for the NUL) fails at some append
exactly when the total output does not fit below the buffer size, so success
is equivalent to `length < PLEXUS_JSON_BUFFER_SIZE`. -/
def serialize (sid : List Nat) (ms : List Metric) : Option (List Nat) :=
  let out := serializeBody sid ms
  if out.length < PLEXUS_JSON_BUFFER_SIZE then some out else none

/-! ## Wire codec: extraction (plexus_json.c, plexus_json_extract_string) -/

/-- Scan for the closing quote (the first while loop of
`plexus_json_extract_string`): a backslash with a following byte is skipped
in one two-byte step, a NUL or a bare quote stops the scan.  Returns the
number of bytes before the closing quote. -/
def findClose : List Nat → Nat
  | [] => 0
  | c :: rest =>
    if c = 0 then 0
    else if c = 92 then
      match rest with
      | [] => 1
      | _ :: t => 2 + findClose t
    else if c = 34 then 0
    else 1 + findClose rest

/-- Unescape-while-copying (the second loop of `plexus_json_extract_string`).
Only the six listed escapes are decoded; any other backslash is copied as-is
and its successor is then processed on its own (so the two-byte escapes
emitted by the serializer for backspace and formfeed, and the six-byte
`\u00XX` escapes, are NOT decoded). -/
def unescape : List Nat → List Nat
  | [] => []
  | c :: rest =>
    if c = 92 then
      match rest with
      | [] => [92]
      | d :: t =>
        if d = 34 then 34 :: unescape t
        else if d = 92 then 92 :: unescape t
        else if d = 110 then 10 :: unescape t
        else if d = 114 then 13 :: unescape t
        else if d = 116 then 9 :: unescape t
        else if d = 47 then 47 :: unescape t
        else 92 :: unescape (d :: t)
    else c :: unescape rest

/-- Value region processing of `plexus_json_extract_string`, applied from the
byte just after the `"key":"` pattern, with an output buffer of `outSize`
bytes (the copy loop emits one byte per iteration and stops at
`out_size - 1`). -/
def extractValue (region : List Nat) (outSize : Nat) : List Nat :=
  (unescape (region.take (findClose region))).take (outSize - 1)

/-- Byte-list matching: `leadsWith p s` holds when `p` occurs at the very
start of `s`. -/
def leadsWith : List Nat → List Nat → Bool
  | [], _ => true
  | _ :: _, [] => false
  | a :: p, b :: s => if a = b then leadsWith p s else false

/-- Embedding of `strstr`: index of the first occurrence of `needle` in
`hay`. -/
def findSub (hay needle : List Nat) : Option Nat :=
  match hay with
  | [] => if needle = [] then some 0 else none
  | _ :: t =>
    if leadsWith needle hay then some 0
    else match findSub t needle with
      | some i => some (i + 1)
      | none => none

/-- Embedding of `plexus_json_extract_string`: find `"key":"`, then scan and
unescape the value.  When the pattern is absent the C function leaves the
(zeroed) output untouched; the caller sees an empty string. -/
def extractString (json key : List Nat) (outSize : Nat) : List Nat :=
  let pat := 34 :: key ++ [34, 58, 34]
  match findSub json pat with
  | none => []
  | some i => extractValue (json.drop (i + pat.length)) outSize

/-! ## Command polling (plexus_commands.c, plexus_poll_commands) -/

/-- Base-URL computation shared by the poll and result URL builders
(plexus_commands.c lines 49-61 and 144-153): everything before
`/api/ingest`, or the endpoint with trailing slashes stripped. -/
def cmdUrlBase (endpoint : List Nat) : List Nat :=
  match findSub endpoint (strB "/api/ingest") with
  | some i => endpoint.take i
  | none => (endpoint.reverse.dropWhile (fun c => c = 47)).reverse

/-- Observable outcome of one `plexus_poll_commands` call, given the bytes
the HAL GET returned: whether the registered handler was invoked, the parsed
command identifier, and the URL the result is POSTed to. -/
structure PollOut where
  handlerInvoked : Bool
  cmdId : List Nat
  resultUrl : Option (List Nat)
  deriving DecidableEq, Repr

/-- Embedding of the response-processing path of `plexus_poll_commands`
(plexus_commands.c lines 88-177) together with `plexus_json_parse_command`
(plexus_json.c lines 331-345): check for an empty `commands` array, extract
`id` (into a 64-byte buffer) and `command` (256 bytes), bail out when the id
is empty, otherwise invoke the handler and build the result URL
`<base>/api/commands/<id>/result` (abandoned only when it would exceed the
512-byte `result_url` buffer). -/
def pollCommands (endpoint : List Nat) (hasHandler : Bool)
    (response : List Nat) : PollOut :=
  if !hasHandler then ⟨false, [], none⟩
  else if response.length = 0 then ⟨false, [], none⟩
  else if (findSub response (strB "\"commands\":[]")).isSome ||
          (findSub response (strB "\"commands\": []")).isSome then
    ⟨false, [], none⟩
  else
    let id := extractString response (strB "id") 64
    if id = [] then ⟨false, id, none⟩
    else
      let url := cmdUrlBase endpoint ++ strB "/api/commands/" ++ id ++ strB "/result"
      ⟨true, id, if url.length < 512 then some url else none⟩

/-! ## Persistent ring buffer (plexus.c, PLEXUS_ENABLE_PERSISTENT_BUFFER) -/

/-- Persisted ring metadata (`plexus_persist_meta_t`); its own CRC is checked
on load and rewritten on store, which for an uncorrupted store makes load
the identity — the metadata is therefore carried directly. -/
structure Meta where
  head : Nat
  tail : Nat
  count : Nat
  deriving DecidableEq, Repr

/-- Content of one storage slot `plexus_bN`: the persisted
`plexus_persist_header_t` (crc32 + declared length) followed by the payload
bytes. -/
structure Slot where
  crc : Nat
  dataLen : Nat
  payload : List Nat
  deriving DecidableEq, Repr

/-- Durable storage: slot index to content (`none` models a missing or
unreadable key). -/
def Store : Type := Nat → Option Slot

def emptyMeta : Meta := ⟨0, 0, 0⟩

def emptyStore : Store := fun _ => none

/-- Embedding of the failed-batch push block of `plexus_flush` (plexus.c
lines 748-775): write header+payload at `head`, advance `head`; if the ring
is full advance `tail` too (evicting the oldest), otherwise increment
`count`. -/
def ringPush (meta : Meta) (store : Store) (batch : List Nat) : Meta × Store :=
  let store1 : Store :=
    fun i => if i = meta.head then some ⟨crc32 batch, batch.length, batch⟩ else store i
  let head1 := (meta.head + 1) % PLEXUS_PERSIST_MAX_BATCHES
  if meta.count ≥ PLEXUS_PERSIST_MAX_BATCHES then
    (⟨head1, (meta.tail + 1) % PLEXUS_PERSIST_MAX_BATCHES, meta.count⟩, store1)
  else
    (⟨head1, meta.tail, meta.count + 1⟩, store1)

/-- HAL oracle for one API call: `post n` is the result of the n-th
`plexus_hal_http_post`, `tick n` the reading of the n-th
`plexus_hal_get_tick_ms`, `wallMs` the wall clock
(`plexus_hal_get_time_ms`). -/
structure Hal where
  post : Nat → PErr
  tick : Nat → Nat
  wallMs : Nat

/-- Result of the drain loop: updated metadata and store, the payloads
successfully re-sent, and the next HTTP post index. -/
structure DrainOut where
  meta : Meta
  store : Store
  sent : List (List Nat)
  postIdx : Nat

/-- Embedding of the ring-drain loop of `plexus_flush` (plexus.c lines
611-664): while slots remain, read the slot at `tail`; an unreadable slot,
a stored length not exceeding the header, a declared length larger than the
payload, or a CRC mismatch discards the slot and continues; a valid slot is
POSTed — on success it is cleared and the loop continues, on failure the
loop stops.  The loop runs at most `meta.count` times (each iteration
decrements `count`), which bounds the fuel. -/
def drainGo (hal : Hal) : Nat → Meta → Store → List (List Nat) → Nat → DrainOut
  | 0, meta, store, sent, pIdx => ⟨meta, store, sent, pIdx⟩
  | fuel + 1, meta, store, sent, pIdx =>
    if meta.count = 0 then ⟨meta, store, sent, pIdx⟩
    else
      match store meta.tail with
      | none =>
        drainGo hal fuel ⟨meta.head, (meta.tail + 1) % PLEXUS_PERSIST_MAX_BATCHES,
          meta.count - 1⟩ (fun i => if i = meta.tail then none else store i) sent pIdx
      | some slot =>
        if slot.payload.length = 0 then
          drainGo hal fuel ⟨meta.head, (meta.tail + 1) % PLEXUS_PERSIST_MAX_BATCHES,
            meta.count - 1⟩ (fun i => if i = meta.tail then none else store i) sent pIdx
        else if slot.dataLen > slot.payload.length ||
                crc32 (slot.payload.take slot.dataLen) ≠ slot.crc then
          drainGo hal fuel ⟨meta.head, (meta.tail + 1) % PLEXUS_PERSIST_MAX_BATCHES,
            meta.count - 1⟩ (fun i => if i = meta.tail then none else store i) sent pIdx
        else if hal.post pIdx = PErr.ok then
          drainGo hal fuel ⟨meta.head, (meta.tail + 1) % PLEXUS_PERSIST_MAX_BATCHES,
            meta.count - 1⟩ (fun i => if i = meta.tail then none else store i)
            (sent ++ [slot.payload.take slot.dataLen]) (pIdx + 1)
        else ⟨meta, store, sent, pIdx + 1⟩

/-! ## Client state and the flush/retry engine (plexus.c) -/

/-- Client state (`plexus_client_t`), restricted to the fields the claims
reason about; the client is initialized. -/
structure St where
  sourceId : List Nat
  metrics : List Metric
  lastFlush : Nat
  totalSent : Nat
  totalErrors : Nat
  flushIntervalMs : Nat
  autoFlushCount : Nat
  retryBackoff : Nat
  rateLimitUntil : Nat
  meta : Meta
  store : Store

/-- Outcome of the retry loop of `plexus_flush` (lines 688-737). -/
structure RetryOut where
  err : PErr
  attempts : Nat
  delays : List Nat
  backoff : Nat
  postIdx : Nat
  tickIdx : Nat
  arm : Option Nat

/-- Pre-attempt part of one retry-loop iteration (`if (retry > 0)` block,
plexus.c lines 689-692): run `compute_backoff` and insert the delay.
Returns the updated `retry_backoff_ms`, the next unread tick index (one
reading is consumed for the jitter seed when `jitter_range > 0`) and the
delays inserted so far. -/
def backoffStep (hal : Hal) (retry backoff tIdx : Nat) (delays : List Nat) :
    Nat × Nat × List Nat :=
  if retry > 0 then
    let b2 := nextBackoff backoff
    if b2 / 4 > 0 then (b2, tIdx + 1, delays ++ [backoffDelay b2 (hal.tick tIdx)])
    else (b2, tIdx, delays ++ [b2])
  else (backoff, tIdx, delays)

/-- Embedding of the retry loop of `plexus_flush` (lines 688-737): up to
`fuel` further iterations, `retry` iterations already done.  Before every
attempt but the first, `compute_backoff` runs and the computed delay is
inserted.  Success, auth failure and rate limit leave the loop; a rate
limit also arms the cooldown deadline from a fresh tick reading.  Other
failures are retried until the fuel (the remaining iterations of the C
`for` loop) runs out. -/
def retryGo (hal : Hal) : Nat → Nat → Nat → Nat → Nat → List Nat → PErr → RetryOut
  | 0, retry, backoff, pIdx, tIdx, delays, lastErr =>
    ⟨lastErr, retry, delays, backoff, pIdx, tIdx, none⟩
  | fuel + 1, retry, backoff, pIdx, tIdx, delays, _lastErr =>
    let s := backoffStep hal retry backoff tIdx delays
    let err := hal.post pIdx
    if err = PErr.ok then
      ⟨PErr.ok, retry + 1, s.2.2, s.1, pIdx + 1, s.2.1, none⟩
    else if err = PErr.auth then
      ⟨PErr.auth, retry + 1, s.2.2, s.1, pIdx + 1, s.2.1, none⟩
    else if err = PErr.rateLimit then
      ⟨PErr.rateLimit, retry + 1, s.2.2, s.1, pIdx + 1, s.2.1 + 1,
        some ((hal.tick s.2.1 % U32 + PLEXUS_RATE_LIMIT_COOLDOWN_MS) % U32)⟩
    else
      retryGo hal fuel (retry + 1) s.1 (pIdx + 1) s.2.1 s.2.2 err

/-- Full observable outcome of one `plexus_flush` call. -/
structure FlushOut where
  err : PErr
  st : St
  drainSent : List (List Nat)
  attempts : Nat
  delays : List Nat

/-- Main part of `plexus_flush` after the cooldown gate (plexus.c lines
609-787): drain the ring, fail with no-data on an empty queue, serialize
once, run the retry loop; on success clear the queue and stamp
`last_flush_ms`; on failure arm any rate-limit cooldown, persist the batch
when header+payload fit the buffer, and count the error.  `tIdx0` is the
index of the next unread tick value. -/
def flushMain (st : St) (hal : Hal) (tIdx0 : Nat) : FlushOut :=
  let d := drainGo hal st.meta.count st.meta st.store [] 0
  let st1 : St := { st with meta := d.meta, store := d.store }
  if st1.metrics.length = 0 then ⟨PErr.noData, st1, d.sent, 0, []⟩
  else
    match serialize st1.sourceId st1.metrics with
    | none =>
      ⟨PErr.json, { st1 with totalErrors := (st1.totalErrors + 1) % U32 }, d.sent, 0, []⟩
    | some payload =>
      let r := retryGo hal PLEXUS_MAX_RETRIES 0 0 d.postIdx tIdx0 [] PErr.network
      if r.err = PErr.ok then
        ⟨PErr.ok,
          { st1 with
            totalSent := (st1.totalSent + st1.metrics.length) % U32,
            metrics := [],
            lastFlush := hal.tick r.tickIdx % U32,
            retryBackoff := 0 },
          d.sent, r.attempts, r.delays⟩
      else
        let st2 : St :=
          { st1 with
            retryBackoff := r.backoff,
            rateLimitUntil := match r.arm with
              | some v => v
              | none => st1.rateLimitUntil }
        let st3 : St :=
          if payload.length + 8 ≤ PLEXUS_JSON_BUFFER_SIZE then
            let ps := ringPush st2.meta st2.store payload
            { st2 with meta := ps.1, store := ps.2 }
          else st2
        ⟨r.err, { st3 with totalErrors := (st3.totalErrors + 1) % U32 },
          d.sent, r.attempts, r.delays⟩

/-- Embedding of `plexus_flush` (plexus.c lines 588-788) starting its tick
reads at index `tIdx0`: the rate-limit cooldown gate (lines 599-607) in
front of `flushMain`.  An active, un-elapsed cooldown fails fast with no
transmission at all; an elapsed one is cleared before proceeding.  A zero
`rate_limit_until_ms` means no cooldown. -/
def flushFrom (st : St) (hal : Hal) (tIdx0 : Nat) : FlushOut :=
  if st.rateLimitUntil > 0 then
    if !tickElapsed (hal.tick tIdx0) st.rateLimitUntil then
      ⟨PErr.rateLimit, st, [], 0, []⟩
    else flushMain { st with rateLimitUntil := 0 } hal (tIdx0 + 1)
  else flushMain st hal tIdx0

/-- Embedding of `plexus_flush` called directly by the application. -/
def flush (st : St) (hal : Hal) : FlushOut := flushFrom st hal 0

/-! ## Metric queue operations (plexus.c, add_metric and the send family) -/

/-- Result of one enqueue call: error code, state after, and the log of the
auto-flush if one was triggered. -/
structure SendOut where
  err : PErr
  st : St
  flushed : Option FlushOut

/-- Embedding of `add_metric` (plexus.c lines 351-388) followed by
`maybe_auto_flush` (lines 339-346): validate the name length, character set
and queue capacity; append the record (a zero timestamp is replaced by the
wall clock); then flush when the count reaches the effective threshold
(`auto_flush_count` override, else `PLEXUS_AUTO_FLUSH_COUNT`).  The
threshold check compares only the metric count — never the clock. -/
def addMetric (st : St) (name : List Nat) (v : PVal) (ts : Nat) (hal : Hal) : SendOut :=
  if name.length ≥ PLEXUS_MAX_METRIC_NAME_LEN then ⟨PErr.stringTooLong, st, none⟩
  else if !isValidMetricName name then ⟨PErr.invalidArg, st, none⟩
  else if st.metrics.length ≥ PLEXUS_MAX_METRICS then ⟨PErr.bufferFull, st, none⟩
  else
    let m : Metric := ⟨name, v, if ts > 0 then ts else hal.wallMs, []⟩
    let st1 : St := { st with metrics := st.metrics ++ [m] }
    let threshold := if st1.autoFlushCount > 0 then st1.autoFlushCount
                     else PLEXUS_AUTO_FLUSH_COUNT
    if threshold > 0 ∧ st1.metrics.length ≥ threshold then
      let f := flush st1 hal
      ⟨f.err, f.st, some f⟩
    else ⟨PErr.ok, st1, none⟩

/-- Embedding of `plexus_send_number` / `plexus_send_number_ts`.  `repr` is
the formatted byte string the codec will emit for the double (see `PVal`). -/
def sendNumber (st : St) (name repr : List Nat) (hal : Hal) : SendOut :=
  addMetric st name (PVal.num repr) 0 hal

def sendNumberTs (st : St) (name repr : List Nat) (ts : Nat) (hal : Hal) : SendOut :=
  addMetric st name (PVal.num repr) ts hal

/-- Embedding of `plexus_send_string` (plexus.c lines 414-430): the value
length is checked against `PLEXUS_MAX_STRING_VALUE_LEN` before
`add_metric` runs. -/
def sendString (st : St) (name s : List Nat) (hal : Hal) : SendOut :=
  if s.length ≥ PLEXUS_MAX_STRING_VALUE_LEN then ⟨PErr.stringTooLong, st, none⟩
  else addMetric st name (PVal.str s) 0 hal

/-- Embedding of `plexus_send_bool`. -/
def sendBool (st : St) (name : List Nat) (b : Bool) (hal : Hal) : SendOut :=
  addMetric st name (PVal.bval b) 0 hal

/-- Embedding of `plexus_clear`. -/
def clearQueue (st : St) : St := { st with metrics := [] }

/-- Embedding of `plexus_pending_count`. -/
def pendingCount (st : St) : Nat := st.metrics.length

/-- Embedding of `plexus_tick` (plexus.c lines 819-851), translated from the
source as it stands: an empty queue returns success immediately; otherwise
the effective flush interval (override or default, both positive) sets the
deadline `last_flush_ms + interval`, compared wraparound-safely against the
current tick, and an elapsed deadline triggers `plexus_flush`.  The source
contains no command-poll step and no heartbeat step. -/
def plexusTick (st : St) (hal : Hal) : SendOut :=
  if st.metrics.length = 0 then ⟨PErr.ok, st, none⟩
  else
    let interval := if st.flushIntervalMs > 0 then st.flushIntervalMs
                    else PLEXUS_AUTO_FLUSH_INTERVAL_MS
    if interval > 0 then
      let now := hal.tick 0
      let deadline := (st.lastFlush + interval) % U32
      if tickElapsed now deadline then
        let f := flushFrom st hal 1
        ⟨f.err, f.st, some f⟩
      else ⟨PErr.ok, st, none⟩
    else ⟨PErr.ok, st, none⟩

/-- One client operation, for reasoning about arbitrary call sequences. -/
inductive Op where
  | opSendNumber (name repr : List Nat)
  | opSendNumberTs (name repr : List Nat) (ts : Nat)
  | opSendString (name s : List Nat)
  | opSendBool (name : List Nat) (b : Bool)
  | opFlush
  | opTick
  | opClear

/-- State reached after one operation (each call gets its own HAL oracle). -/
def runOp (st : St) : Op × Hal → St
  | (.opSendNumber name repr, hal) => (sendNumber st name repr hal).st
  | (.opSendNumberTs name repr ts, hal) => (sendNumberTs st name repr ts hal).st
  | (.opSendString name s, hal) => (sendString st name s hal).st
  | (.opSendBool name b, hal) => (sendBool st name b hal).st
  | (.opFlush, hal) => (flush st hal).st
  | (.opTick, hal) => (plexusTick st hal).st
  | (.opClear, _) => clearQueue st

/-- State after a sequence of operations. -/
def runOps (st : St) : List (Op × Hal) → St
  | [] => st
  | oh :: rest => runOps (runOp st oh) rest

/-! ## Derived quantities used in theorem statements -/

/-- Nominal (jitter-free) backoff before retry `i + 2`: doubling from the
base, capped at the maximum. -/
def nomB (i : Nat) : Nat := min (PLEXUS_RETRY_BASE_MS * 2 ^ i) PLEXUS_RETRY_MAX_MS

/-- Iterated `compute_backoff` state: value of `retry_backoff_ms` after `j`
updates starting from the reset value 0. -/
def backoffIter : Nat → Nat
  | 0 => 0
  | j + 1 => nextBackoff (backoffIter j)

/-- Errors the retry loop retries on (everything except success, auth
failure and rate limiting). -/
def retryableErr (e : PErr) : Bool :=
  !(e = PErr.ok || e = PErr.auth || e = PErr.rateLimit)

/-! ## Derived notions for the ring-buffer claims -/

/-- Iterated `ringPush` (one failed-batch push per failed flush). -/
def pushAll : Meta → Store → List (List Nat) → Meta × Store
  | meta, store, [] => (meta, store)
  | meta, store, b :: rest => pushAll (ringPush meta store b).1 (ringPush meta store b).2 rest

/-- Retained-batch bookkeeping of one push: append the new batch, dropping
the oldest when the ring is already full. -/
def pushRetained (retained : List (List Nat)) (b : List Nat) : List (List Nat) :=
  if retained.length ≥ PLEXUS_PERSIST_MAX_BATCHES then retained.drop 1 ++ [b]
  else retained ++ [b]

def pushAllRetained : List (List Nat) → List (List Nat) → List (List Nat)
  | retained, [] => retained
  | retained, b :: rest => pushAllRetained (pushRetained retained b) rest

/-- Representation invariant tying ring metadata and storage to the list of
retained batches, oldest first: `count` matches, the ring is not
over-full, `head` sits `count` slots past `tail`, and slot `tail + i` holds
the `i`-th retained batch behind a valid CRC32 header. -/
def RingRep (meta : Meta) (store : Store) (retained : List (List Nat)) : Prop :=
  meta.count = retained.length ∧
  retained.length ≤ PLEXUS_PERSIST_MAX_BATCHES ∧
  meta.tail < PLEXUS_PERSIST_MAX_BATCHES ∧
  meta.head = (meta.tail + meta.count) % PLEXUS_PERSIST_MAX_BATCHES ∧
  ∀ i (h : i < retained.length),
    store ((meta.tail + i) % PLEXUS_PERSIST_MAX_BATCHES) =
      some ⟨crc32 retained[i], (retained[i]).length, retained[i]⟩

/-! ## Concrete fixtures used by witnesses and counterexamples -/

/-- A one-element metric queue: the number 1 under the name `t`. -/
def mFix : Metric := ⟨strB "t", PVal.num (strB "1"), 5, []⟩

/-- A freshly initialized client holding one metric. -/
def stFix : St :=
  ⟨strB "dev-001", [mFix], 0, 0, 0, 0, 0, 0, 0, emptyMeta, emptyStore⟩

/-- The same client with an armed rate-limit cooldown deadline. -/
def stFixCooldown : St :=
  ⟨strB "dev-001", [mFix], 0, 0, 0, 0, 0, 0, 31000, emptyMeta, emptyStore⟩

/-- HAL whose first post is rate-limited, with the clock at 1000 ms. -/
def halRL : Hal := ⟨fun _ => PErr.rateLimit, fun _ => 1000, 7⟩

/-- HAL with every post succeeding, with the clock at 1000 ms (cooldown not
yet elapsed for `stFixCooldown`). -/
def halOkEarly : Hal := ⟨fun _ => PErr.ok, fun _ => 1000, 7⟩

/-- HAL with every post succeeding, with the clock at 31000 ms (cooldown of
`stFixCooldown` exactly elapsed). -/
def halOkLate : Hal := ⟨fun _ => PErr.ok, fun _ => 31000, 7⟩

/-- HAL whose first post is rate-limited with the monotonic clock at
`2^32 - 30000` ms: arming the cooldown computes `2^32 - 30000 + 30000`,
which wraps to 0 — the inactive-cooldown sentinel. -/
def halRLWrap : Hal := ⟨fun _ => PErr.rateLimit, fun _ => 4294937296, 7⟩

/-- HAL with every post succeeding, one millisecond after `halRLWrap`. -/
def halOkWrap : Hal := ⟨fun _ => PErr.ok, fun _ => 4294937297, 7⟩

/-- A client whose queue already holds `PLEXUS_MAX_METRICS` records. -/
def stFull : St :=
  { stFix with metrics := List.replicate PLEXUS_MAX_METRICS mFix }

/-- HAL whose every post fails with a retryable network error. -/
def halNet : Hal := ⟨fun _ => PErr.network, fun n => n, 7⟩

/-- A poll response carrying one command whose id is the path-traversal
string `../../evil` (body braces written as byte escapes). -/
def cmdInjResponse : List Nat :=
  strB "\x7b\"commands\":[\x7b\"id\":\"../../evil\",\"command\":\"reboot\",\"timeout_seconds\":5\x7d]\x7d"

/-! ## Occurrence counting and byte-class predicates (claim C8) -/

/-- The bytes of `metric`. -/
def metricB : List Nat := [109, 101, 116, 114, 105, 99]

/-- The bytes of the substring `"metric":` whose occurrences C8 counts. -/
def metricPat : List Nat := 34 :: metricB ++ [34, 58]

/-- Plain printable byte: escaped to itself by `json_append_escaped` and
free of structural quotes and backslashes. -/
def safeByte (c : Nat) : Bool := (32 ≤ c && c ≤ 126) && (c ≠ 34 && c ≠ 92)

def safeStr (s : List Nat) : Bool := s.all safeByte

/-- Number of positions of `s` at which `pat` occurs. -/
def cntP (pat : List Nat) : List Nat → Nat
  | [] => 0
  | c :: t => (if leadsWith pat (c :: t) then 1 else 0) + cntP pat t

/-- Number of positions of `a` at which `pat` occurs in `a ++ rest`
(occurrences may run over into `rest`). -/
def cnt2 (pat : List Nat) : List Nat → List Nat → Nat
  | [], _ => 0
  | c :: t, rest => (if leadsWith pat (c :: t ++ rest) then 1 else 0) + cnt2 pat t rest

/-- Value payload whose bytes are plain printable (every `%.10g` output and
`null` satisfy this). -/
def okVal : PVal → Bool
  | .num r => safeStr r
  | .str s => safeStr s
  | .bval _ => true

/-- Metric whose name, value and tags are plain printable and no tag key is
the string `metric`. -/
def okMetric (m : Metric) : Bool :=
  safeStr m.name && okVal m.value &&
  m.tags.all (fun kv => (safeStr kv.1 && safeStr kv.2) && kv.1 ≠ metricB)

/-- Byte classes whose serializer escape is decoded back by
`plexus_json_extract_string`: everything from space up (including quote and
backslash) plus tab, newline and carriage return. -/
def rtByte (c : Nat) : Bool := 32 ≤ c || (c = 9 || (c = 10 || c = 13))

/-- Optional timestamp block of one point. -/
def tsBlock (ts : Nat) : List Nat :=
  if ts > 0 then strB ",\"timestamp\":" ++ toDec ts else []

/-- Optional tags block of one point. -/
def tagBlock (tags : List (List Nat × List Nat)) : List Nat :=
  if tags.length > 0 then strB ",\"tags\":\x7b" ++ tagsJson tags ++ [125] else []

end Plexus

namespace Plexus

/-! ## Helper lemmas about the backoff computation -/

theorem nomB_pos (i : Nat) : 0 < nomB i := by
  unfold nomB PLEXUS_RETRY_BASE_MS PLEXUS_RETRY_MAX_MS
  have h : (0:Nat) < 2 ^ i := Nat.pos_pow_of_pos i (by omega)
  omega

theorem nomB_le (i : Nat) : nomB i ≤ PLEXUS_RETRY_MAX_MS := by
  unfold nomB; omega

theorem backoffIter_succ (j : Nat) : backoffIter (j + 1) = nomB j := by
  induction j with
  | zero => decide
  | succ k ih =>
    show nextBackoff (backoffIter (k + 1)) = nomB (k + 1)
    rw [ih]
    unfold nextBackoff nomB PLEXUS_RETRY_BASE_MS PLEXUS_RETRY_MAX_MS U32
    rw [pow_succ]
    have hp : (0:Nat) < 2 ^ k := Nat.pos_pow_of_pos k (by omega)
    have hb : (8:Nat) ≤ 2 ^ k → 2 ^ k ≥ 8 := fun h => h
    have hne : ¬ (min (500 * 2 ^ k) 8000 = 0) := by
      have := Nat.min_le_left (500 * 2 ^ k) 8000; omega
    rw [if_neg hne]
    have hlt : min (500 * 2 ^ k) 8000 * 2 < 4294967296 := by
      have := Nat.min_le_right (500 * 2 ^ k) 8000; omega
    rw [Nat.mod_eq_of_lt hlt]
    show (if min (500 * 2 ^ k) 8000 * 2 > 8000 then 8000
          else min (500 * 2 ^ k) 8000 * 2) = _
    split <;> omega

theorem backoffDelay_bounds (b2 seed : Nat) (hb : 0 < b2) :
    3 * b2 / 4 ≤ backoffDelay b2 seed ∧ backoffDelay b2 seed ≤ 5 * b2 / 4 := by
  unfold backoffDelay
  by_cases hr : b2 / 4 > 0
  · simp only [if_pos hr]
    have hj : backoffRand ((seed % U32) ^^^ b2) % (b2 / 4 * 2) < b2 / 4 * 2 :=
      Nat.mod_lt _ (by omega)
    omega
  · simp only [if_neg hr]
    omega

/-! ## Helper lemmas about the retry loop -/

theorem retryGo_zero (hal : Hal) (retry backoff pIdx tIdx : Nat) (delays : List Nat)
    (lastErr : PErr) :
    retryGo hal 0 retry backoff pIdx tIdx delays lastErr =
      ⟨lastErr, retry, delays, backoff, pIdx, tIdx, none⟩ := rfl

theorem retryGo_succ (hal : Hal) (fuel retry backoff pIdx tIdx : Nat) (delays : List Nat)
    (lastErr : PErr) :
    retryGo hal (fuel + 1) retry backoff pIdx tIdx delays lastErr =
      (let s := backoffStep hal retry backoff tIdx delays
       let err := hal.post pIdx
       if err = PErr.ok then
         ⟨PErr.ok, retry + 1, s.2.2, s.1, pIdx + 1, s.2.1, none⟩
       else if err = PErr.auth then
         ⟨PErr.auth, retry + 1, s.2.2, s.1, pIdx + 1, s.2.1, none⟩
       else if err = PErr.rateLimit then
         ⟨PErr.rateLimit, retry + 1, s.2.2, s.1, pIdx + 1, s.2.1 + 1,
           some ((hal.tick s.2.1 % U32 + PLEXUS_RATE_LIMIT_COOLDOWN_MS) % U32)⟩
       else
         retryGo hal fuel (retry + 1) s.1 (pIdx + 1) s.2.1 s.2.2 err) := rfl

theorem backoffStep_zero (hal : Hal) (backoff tIdx : Nat) (delays : List Nat) :
    backoffStep hal 0 backoff tIdx delays = (backoff, tIdx, delays) := rfl

theorem backoffStep_pos_jit (hal : Hal) (retry backoff tIdx : Nat) (delays : List Nat)
    (h0 : retry > 0) (hj : nextBackoff backoff / 4 > 0) :
    backoffStep hal retry backoff tIdx delays =
      (nextBackoff backoff, tIdx + 1,
        delays ++ [backoffDelay (nextBackoff backoff) (hal.tick tIdx)]) := by
  unfold backoffStep
  rw [if_pos h0, if_pos hj]

theorem backoffStep_pos_nojit (hal : Hal) (retry backoff tIdx : Nat) (delays : List Nat)
    (h0 : retry > 0) (hj : ¬ nextBackoff backoff / 4 > 0) :
    backoffStep hal retry backoff tIdx delays =
      (nextBackoff backoff, tIdx, delays ++ [nextBackoff backoff]) := by
  unfold backoffStep
  rw [if_pos h0, if_neg hj]

theorem retryGo_spec (hal : Hal) (fuel : Nat) :
    ∀ retry backoff pIdx tIdx delays lastErr,
    backoff = backoffIter (retry - 1) →
    delays.length = retry - 1 →
    (∀ i (h : i < delays.length),
      3 * nomB i / 4 ≤ delays[i] ∧ delays[i] ≤ 5 * nomB i / 4) →
    let r := retryGo hal fuel retry backoff pIdx tIdx delays lastErr
    r.attempts ≤ retry + fuel ∧
    r.delays.length = r.attempts - 1 ∧
    (∀ i (h : i < r.delays.length),
      3 * nomB i / 4 ≤ r.delays[i] ∧ r.delays[i] ≤ 5 * nomB i / 4) := by
  induction fuel with
  | zero =>
    intro retry backoff pIdx tIdx delays lastErr hb hlen hbnd
    rw [retryGo_zero]
    exact ⟨by dsimp only; omega, by dsimp only; omega, by dsimp only; exact hbnd⟩
  | succ fuel ih =>
    intro retry backoff pIdx tIdx delays lastErr hb hlen hbnd
    rw [retryGo_succ]
    by_cases h0 : retry > 0
    · -- compute_backoff runs: the updated backoff is the next nominal value
      have hb2 : nextBackoff backoff = nomB (retry - 1) := by
        rw [hb]
        have h1 : retry - 1 + 1 = retry := by omega
        calc nextBackoff (backoffIter (retry - 1)) = backoffIter (retry - 1 + 1) := rfl
        _ = nomB (retry - 1) := backoffIter_succ _
      have hpos : 0 < nextBackoff backoff := by rw [hb2]; exact nomB_pos _
      have hbnext : nextBackoff backoff = backoffIter ((retry + 1) - 1) := by
        rw [hb2, Nat.add_sub_cancel]
        have h1 : retry - 1 + 1 = retry := by omega
        rw [← backoffIter_succ (retry - 1), h1]
      -- any delay inside the jitter bounds extends the invariant
      have hstep : ∀ (d : Nat),
          3 * nomB (retry - 1) / 4 ≤ d → d ≤ 5 * nomB (retry - 1) / 4 →
          (delays ++ [d]).length = (retry + 1) - 1 ∧
          (∀ i (h : i < (delays ++ [d]).length),
            3 * nomB i / 4 ≤ (delays ++ [d])[i] ∧ (delays ++ [d])[i] ≤ 5 * nomB i / 4) := by
        intro d hd1 hd2
        refine ⟨by simp only [List.length_append, List.length_singleton]; omega, ?_⟩
        intro i h
        rcases lt_or_ge i delays.length with hi | hi
        · rw [List.getElem_append_left hi]
          exact hbnd i hi
        · have hieq : i = delays.length := by
            simp only [List.length_append, List.length_singleton] at h
            omega
          subst hieq
          rw [List.getElem_append_right (le_refl _)]
          simp only [Nat.sub_self, List.getElem_cons_zero]
          rw [hlen]
          exact ⟨hd1, hd2⟩
      by_cases hjr : nextBackoff backoff / 4 > 0
      · rw [backoffStep_pos_jit hal retry backoff tIdx delays h0 hjr]
        obtain ⟨hl1, hb1⟩ := hstep (backoffDelay (nextBackoff backoff) (hal.tick tIdx))
          (by rw [← hb2]; exact (backoffDelay_bounds _ _ hpos).1)
          (by rw [← hb2]; exact (backoffDelay_bounds _ _ hpos).2)
        dsimp only
        split
        · exact ⟨by dsimp only; omega, by dsimp only; omega, by dsimp only; exact hb1⟩
        · split
          · exact ⟨by dsimp only; omega, by dsimp only; omega, by dsimp only; exact hb1⟩
          · split
            · exact ⟨by dsimp only; omega, by dsimp only; omega, by dsimp only; exact hb1⟩
            · have hrec := ih (retry + 1) (nextBackoff backoff) (pIdx + 1) (tIdx + 1)
                (delays ++ [backoffDelay (nextBackoff backoff) (hal.tick tIdx)])
                (hal.post pIdx) hbnext hl1 hb1
              exact ⟨by have := hrec.1; omega, hrec.2.1, hrec.2.2⟩
      · rw [backoffStep_pos_nojit hal retry backoff tIdx delays h0 hjr]
        obtain ⟨hl1, hb1⟩ := hstep (nextBackoff backoff)
          (by rw [hb2]; omega) (by rw [hb2]; omega)
        dsimp only
        split
        · exact ⟨by dsimp only; omega, by dsimp only; omega, by dsimp only; exact hb1⟩
        · split
          · exact ⟨by dsimp only; omega, by dsimp only; omega, by dsimp only; exact hb1⟩
          · split
            · exact ⟨by dsimp only; omega, by dsimp only; omega, by dsimp only; exact hb1⟩
            · have hrec := ih (retry + 1) (nextBackoff backoff) (pIdx + 1) tIdx
                (delays ++ [nextBackoff backoff]) (hal.post pIdx) hbnext hl1 hb1
              exact ⟨by have := hrec.1; omega, hrec.2.1, hrec.2.2⟩
    · have hr0 : retry = 0 := by omega
      subst hr0
      rw [backoffStep_zero]
      have hl0 : delays.length = 0 := by simpa using hlen
      dsimp only
      split
      · exact ⟨by dsimp only; omega, by dsimp only; omega, by dsimp only; exact hbnd⟩
      · split
        · exact ⟨by dsimp only; omega, by dsimp only; omega, by dsimp only; exact hbnd⟩
        · split
          · exact ⟨by dsimp only; omega, by dsimp only; omega, by dsimp only; exact hbnd⟩
          · have hrec := ih (0 + 1) backoff (pIdx + 1) tIdx delays (hal.post pIdx)
              (by rw [hb]) (by simpa using hl0) hbnd
            exact ⟨by have := hrec.1; omega, hrec.2.1, hrec.2.2⟩

theorem drainGo_zero (hal : Hal) (meta : Meta) (store : Store)
    (sent : List (List Nat)) (pIdx : Nat) :
    drainGo hal 0 meta store sent pIdx = ⟨meta, store, sent, pIdx⟩ := rfl

theorem retryable_ne (e : PErr) (h : retryableErr e = true) :
    e ≠ PErr.ok ∧ e ≠ PErr.auth ∧ e ≠ PErr.rateLimit := by
  cases e <;> simp_all [retryableErr]

theorem nomB_quarter_pos (j : Nat) : nomB j / 4 > 0 := by
  have h1 : (500:Nat) ≤ 500 * 2 ^ j := by
    have := Nat.pos_pow_of_pos j (show 0 < 2 by omega)
    nlinarith
  unfold nomB PLEXUS_RETRY_BASE_MS PLEXUS_RETRY_MAX_MS
  omega

theorem retryGo_attempts_ge (hal : Hal) :
    ∀ fuel retry backoff pIdx tIdx delays lastErr, 0 < fuel →
    retry + 1 ≤ (retryGo hal fuel retry backoff pIdx tIdx delays lastErr).attempts := by
  intro fuel
  induction fuel with
  | zero => intro retry backoff pIdx tIdx delays lastErr h; omega
  | succ f ih =>
    intro retry backoff pIdx tIdx delays lastErr _
    rw [retryGo_succ]
    dsimp only
    split
    · dsimp only; omega
    · split
      · dsimp only; omega
      · split
        · dsimp only; omega
        · rcases Nat.eq_zero_or_pos f with hf | hf
          · subst hf
            exact Nat.le_refl _
          · have := ih (retry + 1) (backoffStep hal retry backoff tIdx delays).1
              (pIdx + 1) (backoffStep hal retry backoff tIdx delays).2.1
              (backoffStep hal retry backoff tIdx delays).2.2 (hal.post pIdx) hf
            omega

/-- Retry loop aimed at a rate-limit response, started mid-loop: after `a`
further retryable failures, attempt `retry + a + 1` is rate-limited; the
loop stops there and arms the cooldown from the tick reading that follows
the jitter seeds. -/
theorem retryGo_rl_aux (hal : Hal) :
    ∀ a fuel retry backoff pIdx tIdx delays lastErr,
    retry > 0 →
    backoff = backoffIter (retry - 1) →
    a < fuel →
    (∀ i, i < a → retryableErr (hal.post (pIdx + i)) = true) →
    hal.post (pIdx + a) = PErr.rateLimit →
    (retryGo hal fuel retry backoff pIdx tIdx delays lastErr).err = PErr.rateLimit ∧
    (retryGo hal fuel retry backoff pIdx tIdx delays lastErr).attempts = retry + a + 1 ∧
    (retryGo hal fuel retry backoff pIdx tIdx delays lastErr).arm =
      some ((hal.tick (tIdx + a + 1) % U32 + PLEXUS_RATE_LIMIT_COOLDOWN_MS) % U32) := by
  intro a
  induction a with
  | zero =>
    intro fuel retry backoff pIdx tIdx delays lastErr h0 hb hfuel _ hrl
    obtain ⟨f, rfl⟩ : ∃ f, fuel = f + 1 := ⟨fuel - 1, by omega⟩
    rw [Nat.add_zero] at hrl
    have hb2 : nextBackoff backoff = nomB (retry - 1) := by
      rw [hb]
      have h1 : retry - 1 + 1 = retry := by omega
      calc nextBackoff (backoffIter (retry - 1)) = backoffIter (retry - 1 + 1) := rfl
      _ = nomB (retry - 1) := backoffIter_succ _
    have hj : nextBackoff backoff / 4 > 0 := by rw [hb2]; exact nomB_quarter_pos _
    rw [retryGo_succ, backoffStep_pos_jit hal retry backoff tIdx delays h0 hj]
    dsimp only
    rw [hrl]
    exact ⟨rfl, rfl, rfl⟩
  | succ a ih =>
    intro fuel retry backoff pIdx tIdx delays lastErr h0 hb hfuel hpre hrl
    obtain ⟨f, rfl⟩ : ∃ f, fuel = f + 1 := ⟨fuel - 1, by omega⟩
    have hb2 : nextBackoff backoff = nomB (retry - 1) := by
      rw [hb]
      have h1 : retry - 1 + 1 = retry := by omega
      calc nextBackoff (backoffIter (retry - 1)) = backoffIter (retry - 1 + 1) := rfl
      _ = nomB (retry - 1) := backoffIter_succ _
    have hj : nextBackoff backoff / 4 > 0 := by rw [hb2]; exact nomB_quarter_pos _
    have h1 := retryable_ne (hal.post pIdx) (by simpa using hpre 0 (by omega))
    rw [retryGo_succ, backoffStep_pos_jit hal retry backoff tIdx delays h0 hj]
    dsimp only
    rw [if_neg h1.1, if_neg h1.2.1, if_neg h1.2.2]
    have hbnext : nextBackoff backoff = backoffIter ((retry + 1) - 1) := by
      rw [hb2, Nat.add_sub_cancel]
      have heq : retry - 1 + 1 = retry := by omega
      rw [← backoffIter_succ (retry - 1), heq]
    have hpre2 : ∀ i, i < a → retryableErr (hal.post (pIdx + 1 + i)) = true := by
      intro i hi
      have heq : pIdx + 1 + i = pIdx + (i + 1) := by omega
      rw [heq]
      exact hpre (i + 1) (by omega)
    have hrl2 : hal.post (pIdx + 1 + a) = PErr.rateLimit := by
      have heq : pIdx + 1 + a = pIdx + (a + 1) := by omega
      rw [heq]; exact hrl
    have hrec := ih f (retry + 1) (nextBackoff backoff) (pIdx + 1) (tIdx + 1)
      (delays ++ [backoffDelay (nextBackoff backoff) (hal.tick tIdx)]) (hal.post pIdx)
      (by omega) hbnext (by omega) hpre2 hrl2
    refine ⟨hrec.1, by rw [hrec.2.1]; omega, ?_⟩
    rw [hrec.2.2]
    have heq : tIdx + 1 + a + 1 = tIdx + (a + 1) + 1 := by omega
    rw [heq]

/-- Retry loop aimed at a rate-limit response, from the state `plexus_flush`
starts it in: attempts `1..a` fail retryably, attempt `a + 1` is
rate-limited; the loop makes exactly `a + 1` attempts and arms the cooldown
deadline `now + PLEXUS_RATE_LIMIT_COOLDOWN_MS` from tick reading
`tIdx + a`. -/
theorem retryGo_rate_limited (hal : Hal) (fuel a pIdx tIdx : Nat)
    (hafuel : a < fuel)
    (hpre : ∀ i, i < a → retryableErr (hal.post (pIdx + i)) = true)
    (hrl : hal.post (pIdx + a) = PErr.rateLimit) :
    (retryGo hal fuel 0 0 pIdx tIdx [] PErr.network).err = PErr.rateLimit ∧
    (retryGo hal fuel 0 0 pIdx tIdx [] PErr.network).attempts = a + 1 ∧
    (retryGo hal fuel 0 0 pIdx tIdx [] PErr.network).arm =
      some ((hal.tick (tIdx + a) % U32 + PLEXUS_RATE_LIMIT_COOLDOWN_MS) % U32) := by
  obtain ⟨f, rfl⟩ : ∃ f, fuel = f + 1 := ⟨fuel - 1, by omega⟩
  cases a with
  | zero =>
    rw [Nat.add_zero] at hrl
    rw [retryGo_succ, backoffStep_zero]
    dsimp only
    rw [hrl]
    exact ⟨rfl, rfl, rfl⟩
  | succ a =>
    have h1 := retryable_ne (hal.post pIdx) (by simpa using hpre 0 (by omega))
    rw [retryGo_succ, backoffStep_zero]
    dsimp only
    rw [if_neg h1.1, if_neg h1.2.1, if_neg h1.2.2]
    have hpre2 : ∀ i, i < a → retryableErr (hal.post (pIdx + 1 + i)) = true := by
      intro i hi
      have heq : pIdx + 1 + i = pIdx + (i + 1) := by omega
      rw [heq]
      exact hpre (i + 1) (by omega)
    have hrl2 : hal.post (pIdx + 1 + a) = PErr.rateLimit := by
      have heq : pIdx + 1 + a = pIdx + (a + 1) := by omega
      rw [heq]; exact hrl
    have hrec := retryGo_rl_aux hal a f (0 + 1) 0 (pIdx + 1) tIdx [] (hal.post pIdx)
      (by omega) rfl (by omega) hpre2 hrl2
    refine ⟨hrec.1, by rw [hrec.2.1]; omega, ?_⟩
    rw [hrec.2.2]
    have heq : tIdx + a + 1 = tIdx + (a + 1) := by omega
    rw [heq]


/-! ## Helper lemmas about the persistent ring buffer -/

theorem ringRep_empty : RingRep emptyMeta emptyStore [] := by
  refine ⟨rfl, by decide, by decide, rfl, ?_⟩
  intro i h
  simp at h

theorem ringRep_push (meta : Meta) (store : Store) (retained : List (List Nat))
    (b : List Nat) (hrep : RingRep meta store retained) :
    RingRep (ringPush meta store b).1 (ringPush meta store b).2
      (pushRetained retained b) := by
  simp only [RingRep, PLEXUS_PERSIST_MAX_BATCHES] at hrep
  obtain ⟨hc, hle, ht, hh, hslots⟩ := hrep
  by_cases hfull : retained.length ≥ 8
  · have hlen8 : retained.length = 8 := by omega
    have hht : meta.head = meta.tail := by omega
    have hrp : ringPush meta store b =
        (⟨(meta.head + 1) % 8, (meta.tail + 1) % 8, meta.count⟩,
         fun i => if i = meta.head then some ⟨crc32 b, b.length, b⟩ else store i) := by
      unfold ringPush PLEXUS_PERSIST_MAX_BATCHES
      rw [if_pos (by omega : meta.count ≥ 8)]
    have hpr : pushRetained retained b = retained.drop 1 ++ [b] := by
      unfold pushRetained PLEXUS_PERSIST_MAX_BATCHES
      rw [if_pos hfull]
    rw [hrp, hpr]
    simp only [RingRep, PLEXUS_PERSIST_MAX_BATCHES]
    have hlen : (retained.drop 1 ++ [b]).length = 8 := by
      simp [List.length_drop, hlen8]
    refine ⟨by omega, by rw [hlen], by omega, by omega, ?_⟩
    intro i h
    rw [hlen] at h
    by_cases hi7 : i < 7
    · have hne : ((meta.tail + 1) % 8 + i) % 8 ≠ meta.head := by omega
      rw [if_neg hne]
      have hidx : ((meta.tail + 1) % 8 + i) % 8 = (meta.tail + (i + 1)) % 8 := by omega
      rw [hidx]
      have hb : i + 1 < retained.length := by omega
      have hget : (retained.drop 1 ++ [b])[i] = retained[i + 1] := by
        rw [List.getElem_append_left (by simp [List.length_drop, hlen8]; omega)]
        rw [List.getElem_drop]
        congr 1
        omega
      rw [hget]
      exact hslots (i + 1) hb
    · have hi : i = 7 := by omega
      subst hi
      have heq : ((meta.tail + 1) % 8 + 7) % 8 = meta.head := by omega
      rw [if_pos heq]
      have hget : (retained.drop 1 ++ [b])[7] = b := by
        rw [List.getElem_append_right (by simp [List.length_drop, hlen8])]
        simp [List.length_drop, hlen8]
      rw [hget]
  · have hrp : ringPush meta store b =
        (⟨(meta.head + 1) % 8, meta.tail, meta.count + 1⟩,
         fun i => if i = meta.head then some ⟨crc32 b, b.length, b⟩ else store i) := by
      unfold ringPush PLEXUS_PERSIST_MAX_BATCHES
      rw [if_neg (by omega : ¬ meta.count ≥ 8)]
    have hpr : pushRetained retained b = retained ++ [b] := by
      unfold pushRetained PLEXUS_PERSIST_MAX_BATCHES
      rw [if_neg hfull]
    rw [hrp, hpr]
    simp only [RingRep, PLEXUS_PERSIST_MAX_BATCHES]
    have hlapp : (retained ++ [b]).length = retained.length + 1 := by simp
    refine ⟨by omega, by omega, by omega, by omega, ?_⟩
    intro i h
    simp only [List.length_append, List.length_singleton] at h
    by_cases hi : i < retained.length
    · have hne : (meta.tail + i) % 8 ≠ meta.head := by omega
      rw [if_neg hne]
      rw [List.getElem_append_left hi]
      exact hslots i hi
    · have hieq : i = retained.length := by omega
      subst hieq
      have heq : (meta.tail + retained.length) % 8 = meta.head := by omega
      rw [if_pos heq]
      rw [List.getElem_append_right (le_refl _)]
      simp

theorem pushAll_rep : ∀ (bs : List (List Nat)) (meta : Meta) (store : Store)
    (retained : List (List Nat)), RingRep meta store retained →
    RingRep (pushAll meta store bs).1 (pushAll meta store bs).2
      (pushAllRetained retained bs) := by
  intro bs
  induction bs with
  | nil => intro meta store retained h; exact h
  | cons b rest ih =>
    intro meta store retained h
    exact ih _ _ _ (ringRep_push meta store retained b h)

theorem pushAllRetained_append_single (bs : List (List Nat)) :
    ∀ (r : List (List Nat)) (b : List Nat),
    pushAllRetained r (bs ++ [b]) = pushRetained (pushAllRetained r bs) b := by
  induction bs with
  | nil => intro r b; rfl
  | cons x rest ih => intro r b; exact ih _ b

theorem pushAllRetained_drop (bs : List (List Nat)) :
    pushAllRetained [] bs = bs.drop (bs.length - PLEXUS_PERSIST_MAX_BATCHES) := by
  induction bs using List.reverseRecOn with
  | nil => rfl
  | append_singleton xs x ih =>
    rw [pushAllRetained_append_single, ih]
    unfold pushRetained PLEXUS_PERSIST_MAX_BATCHES
    by_cases hlen : xs.length < 8
    · rw [if_neg (by simp [List.length_drop]; omega)]
      have h0 : xs.length - 8 = 0 := by omega
      have h1 : (xs ++ [x]).length - 8 = 0 := by simp; omega
      rw [h0, h1, List.drop_zero, List.drop_zero]
    · rw [if_pos (by simp [List.length_drop]; omega)]
      rw [List.drop_drop]
      have h1 : (xs ++ [x]).length - 8 = xs.length - 7 := by
        simp only [List.length_append, List.length_singleton]
        omega
      rw [h1, List.drop_append_of_le_length (by omega)]
      congr 2
      omega

theorem drainGo_succ (hal : Hal) (fuel : Nat) (meta : Meta) (store : Store)
    (sent : List (List Nat)) (pIdx : Nat) :
    drainGo hal (fuel + 1) meta store sent pIdx =
      (if meta.count = 0 then ⟨meta, store, sent, pIdx⟩
       else
         match store meta.tail with
         | none =>
           drainGo hal fuel ⟨meta.head, (meta.tail + 1) % PLEXUS_PERSIST_MAX_BATCHES,
             meta.count - 1⟩ (fun i => if i = meta.tail then none else store i) sent pIdx
         | some slot =>
           if slot.payload.length = 0 then
             drainGo hal fuel ⟨meta.head, (meta.tail + 1) % PLEXUS_PERSIST_MAX_BATCHES,
               meta.count - 1⟩ (fun i => if i = meta.tail then none else store i) sent pIdx
           else if slot.dataLen > slot.payload.length ||
                   crc32 (slot.payload.take slot.dataLen) ≠ slot.crc then
             drainGo hal fuel ⟨meta.head, (meta.tail + 1) % PLEXUS_PERSIST_MAX_BATCHES,
               meta.count - 1⟩ (fun i => if i = meta.tail then none else store i) sent pIdx
           else if hal.post pIdx = PErr.ok then
             drainGo hal fuel ⟨meta.head, (meta.tail + 1) % PLEXUS_PERSIST_MAX_BATCHES,
               meta.count - 1⟩ (fun i => if i = meta.tail then none else store i)
               (sent ++ [slot.payload.take slot.dataLen]) (pIdx + 1)
           else ⟨meta, store, sent, pIdx + 1⟩) := rfl

/-- Draining a represented ring with an always-successful transport returns
exactly the retained batches, oldest first, and empties the ring. -/
theorem drain_rep (hal : Hal) (hok : ∀ i, hal.post i = PErr.ok) :
    ∀ (retained : List (List Nat)) (meta : Meta) (store : Store)
      (sent : List (List Nat)) (pIdx : Nat),
    RingRep meta store retained →
    (∀ b ∈ retained, b ≠ []) →
    (drainGo hal meta.count meta store sent pIdx).sent = sent ++ retained ∧
    (drainGo hal meta.count meta store sent pIdx).meta.count = 0 := by
  intro retained
  induction retained with
  | nil =>
    intro meta store sent pIdx hrep _
    have h0 : meta.count = 0 := by simpa using hrep.1
    rw [h0, drainGo_zero]
    exact ⟨by simp, h0⟩
  | cons b rest ih =>
    intro meta store sent pIdx hrep hnb
    obtain ⟨hc, hle, ht, hh, hslots⟩ := hrep
    have hcc : meta.count = rest.length + 1 := by simpa using hc
    have hstore0 : store meta.tail = some ⟨crc32 b, b.length, b⟩ := by
      have := hslots 0 (by simp)
      simpa [Nat.mod_eq_of_lt ht] using this
    have hbne : b ≠ [] := hnb b (by simp)
    rw [hcc, drainGo_succ]
    rw [if_neg (by omega), hstore0]
    dsimp only
    rw [if_neg (by simpa using fun h => hbne (List.length_eq_zero.mp h))]
    have hcond : (decide (b.length > b.length) ||
        decide (crc32 (b.take b.length) ≠ crc32 b)) = false := by
      simp [List.take_length]
    rw [hcond]
    rw [if_neg Bool.false_ne_true, if_pos (hok pIdx)]
    have hrep2 : RingRep ⟨meta.head, (meta.tail + 1) % PLEXUS_PERSIST_MAX_BATCHES,
        meta.count - 1⟩ (fun i => if i = meta.tail then none else store i) rest := by
      simp only [PLEXUS_PERSIST_MAX_BATCHES] at ht hh hle
      simp only [RingRep, PLEXUS_PERSIST_MAX_BATCHES]
      simp only [List.length_cons] at hc hle
      refine ⟨by omega, by omega, by omega, by omega, ?_⟩
      intro i h
      have hne : ((meta.tail + 1) % 8 + i) % 8 ≠ meta.tail := by omega
      rw [if_neg hne]
      have hidx : ((meta.tail + 1) % 8 + i) % 8 = (meta.tail + (i + 1)) % 8 := by omega
      rw [hidx]
      have := hslots (i + 1) (by simp; omega)
      simpa using this
    have hnb2 : ∀ x ∈ rest, x ≠ [] := fun x hx => hnb x (by simp [hx])
    have hrec := ih ⟨meta.head, (meta.tail + 1) % PLEXUS_PERSIST_MAX_BATCHES,
        meta.count - 1⟩ (fun i => if i = meta.tail then none else store i)
        (sent ++ [b.take b.length]) (pIdx + 1) hrep2 hnb2
    have hfuel : (⟨meta.head, (meta.tail + 1) % PLEXUS_PERSIST_MAX_BATCHES,
        meta.count - 1⟩ : Meta).count = rest.length := by dsimp only; omega
    rw [hfuel] at hrec
    refine ⟨?_, hrec.2⟩
    rw [hrec.1, List.take_length]
    simp

/-- Under an empty ring, a non-empty queue and a successful serialization,
`flushMain` is exactly the retry loop followed by the success bookkeeping or
the failure bookkeeping (cooldown arming, conditional persist, error
count). -/
theorem flushMain_view (st : St) (hal : Hal) (t0 : Nat) (p : List Nat)
    (hcount : st.meta.count = 0)
    (hne : st.metrics ≠ [])
    (hser : serialize st.sourceId st.metrics = some p) :
    flushMain st hal t0 =
      (let r := retryGo hal PLEXUS_MAX_RETRIES 0 0 0 t0 [] PErr.network
       if r.err = PErr.ok then
         ⟨PErr.ok,
           { st with
             totalSent := (st.totalSent + st.metrics.length) % U32,
             metrics := [],
             lastFlush := hal.tick r.tickIdx % U32,
             retryBackoff := 0 },
           [], r.attempts, r.delays⟩
       else
         let st2 : St :=
           { st with
             retryBackoff := r.backoff,
             rateLimitUntil := match r.arm with
               | some v => v
               | none => st.rateLimitUntil }
         let st3 : St :=
           if p.length + 8 ≤ PLEXUS_JSON_BUFFER_SIZE then
             { st2 with meta := (ringPush st2.meta st2.store p).1,
                        store := (ringPush st2.meta st2.store p).2 }
           else st2
         ⟨r.err, { st3 with totalErrors := (st3.totalErrors + 1) % U32 },
           [], r.attempts, r.delays⟩) := by
  unfold flushMain
  rw [hcount, drainGo_zero]
  dsimp only
  rw [if_neg (fun h => hne (List.length_eq_zero.mp h)), hser]

/-- Case analysis used by several claims: the delivery attempts and delays
of one `plexus_flush` call are either absent (fast-fail, empty queue,
serialization failure) or exactly those of one run of the retry loop
started with a reset backoff and no accumulated delays. -/
theorem flushFrom_attempts_delays (st : St) (hal : Hal) (t0 : Nat) :
    ((flushFrom st hal t0).attempts = 0 ∧ (flushFrom st hal t0).delays = []) ∨
    (∃ (st1 : St) (pidx t1 : Nat),
      (flushFrom st hal t0).attempts =
        (retryGo hal PLEXUS_MAX_RETRIES 0 0 pidx t1 [] PErr.network).attempts ∧
      (flushFrom st hal t0).delays =
        (retryGo hal PLEXUS_MAX_RETRIES 0 0 pidx t1 [] PErr.network).delays ∧
      (serialize st1.sourceId st1.metrics).isSome) := by
  have hmain : ∀ (st2 : St) (t1 : Nat),
      ((flushMain st2 hal t1).attempts = 0 ∧ (flushMain st2 hal t1).delays = []) ∨
      (∃ (st1 : St) (pidx t2 : Nat),
        (flushMain st2 hal t1).attempts =
          (retryGo hal PLEXUS_MAX_RETRIES 0 0 pidx t2 [] PErr.network).attempts ∧
        (flushMain st2 hal t1).delays =
          (retryGo hal PLEXUS_MAX_RETRIES 0 0 pidx t2 [] PErr.network).delays ∧
        (serialize st1.sourceId st1.metrics).isSome) := by
    intro st2 t1
    unfold flushMain
    dsimp only
    split
    · exact Or.inl ⟨rfl, rfl⟩
    · split
      · exact Or.inl ⟨rfl, rfl⟩
      · rename_i payload heq
        split
        · exact Or.inr ⟨_, _, _, rfl, rfl, by rw [heq]; rfl⟩
        · exact Or.inr ⟨_, _, _, rfl, rfl, by rw [heq]; rfl⟩
  unfold flushFrom
  split
  · split
    · exact Or.inl ⟨rfl, rfl⟩
    · exact hmain _ _
  · exact hmain _ _

/-! ## Theorems

Claim C6 concerns `tick_elapsed` directly. -/

/-- C6: for every pair of 32-bit tick values whose true separation is below
`2^31` ms, `tick_elapsed now deadline` is true exactly when `now` has reached
or passed `deadline` modulo `2^32`: if `now` sits `d < 2^31` ticks at or past
the deadline the comparison fires, and if `now` sits `0 < d < 2^31` ticks
before the deadline it does not — so a flush-interval check straddling the
uint32 wraparound triggers at the correct boundary, neither early nor
indefinitely late. -/
theorem C6_tick_elapsed_wraparound (deadline d : Nat) (hdl : deadline < U32)
    (hd : d < 2147483648) :
    tickElapsed ((deadline + d) % U32) deadline = true ∧
    (0 < d → tickElapsed ((deadline + (U32 - d)) % U32) deadline = false) := by
  constructor
  · unfold tickElapsed U32 at *
    simp only [decide_eq_true_eq]
    omega
  · intro hpos
    unfold tickElapsed U32 at *
    simp only [decide_eq_false_iff_not, not_lt]
    omega

/-- Witness for C6 at a window that straddles the wraparound: the deadline is
`2^32 - 100` and the clock has advanced 150 ticks past it (wrapping to 50);
also, 100 ticks before that deadline the comparison does not fire. -/
theorem C6_tick_elapsed_wraparound_witness :
    tickElapsed ((4294967196 + 150) % U32) 4294967196 = true ∧
    (0 < 100 → tickElapsed ((4294967196 + (U32 - 100)) % U32) 4294967196 = false) := by
  exact ⟨(C6_tick_elapsed_wraparound 4294967196 150 (by decide) (by decide)).1,
         (C6_tick_elapsed_wraparound 4294967196 100 (by decide) (by decide)).2⟩

/-- C7: within one `plexus_flush` call there are at most `PLEXUS_MAX_RETRIES`
delivery attempts in the retry loop, and the delay inserted before retry
`r = i + 2` (the element at index `i` of the delay list) lies within ±25% of
the nominal backoff `min (PLEXUS_RETRY_BASE_MS * 2 ^ i) PLEXUS_RETRY_MAX_MS`:
the nominal values double from the base and are capped at the maximum, and
the jittered delay is between three quarters and five quarters of the
nominal value. -/
theorem C7_retry_ceiling_and_backoff_bounds (st : St) (hal : Hal) :
    (flush st hal).attempts ≤ PLEXUS_MAX_RETRIES ∧
    (flush st hal).delays.length ≤ PLEXUS_MAX_RETRIES - 1 ∧
    (∀ i (h : i < (flush st hal).delays.length),
      3 * min (PLEXUS_RETRY_BASE_MS * 2 ^ i) PLEXUS_RETRY_MAX_MS / 4 ≤
        (flush st hal).delays[i] ∧
      (flush st hal).delays[i] ≤
        5 * min (PLEXUS_RETRY_BASE_MS * 2 ^ i) PLEXUS_RETRY_MAX_MS / 4) := by
  rcases flushFrom_attempts_delays st hal 0 with ⟨ha, hd⟩ | ⟨st1, pidx, t1, ha, hd, _⟩
  · unfold flush
    refine ⟨?_, ?_, ?_⟩
    · rw [ha]; unfold PLEXUS_MAX_RETRIES; omega
    · rw [hd]; simp
    · intro i h
      rw [hd] at h
      simp at h
  · have hspec := retryGo_spec hal PLEXUS_MAX_RETRIES 0 0 pidx t1 [] PErr.network
      rfl rfl (by intro i h; simp at h)
    unfold flush
    refine ⟨?_, ?_, ?_⟩
    · rw [ha]; exact le_of_le_of_eq hspec.1 (by omega)
    · rw [hd, hspec.2.1]
      have := hspec.1
      unfold PLEXUS_MAX_RETRIES at this ⊢
      omega
    · intro i h
      rw [hd] at h
      simp only [hd]
      have := hspec.2.2 i h
      unfold nomB at this
      exact this

/-- Witness for C7: a concrete client whose flush fails once with a network
error and succeeds on the second attempt, so exactly one backoff delay is
inserted; the theorem bounds it by the first nominal value 500 ms. -/
theorem C7_retry_ceiling_and_backoff_bounds_witness :
    (flush ⟨strB "dev-001", [⟨strB "temp", PVal.num (strB "1"), 5, []⟩],
        0, 0, 0, 0, 0, 0, 0, emptyMeta, emptyStore⟩
      ⟨fun n => if n = 0 then PErr.network else PErr.ok, fun n => n, 7⟩).attempts ≤
      PLEXUS_MAX_RETRIES ∧
    0 < (flush ⟨strB "dev-001", [⟨strB "temp", PVal.num (strB "1"), 5, []⟩],
        0, 0, 0, 0, 0, 0, 0, emptyMeta, emptyStore⟩
      ⟨fun n => if n = 0 then PErr.network else PErr.ok, fun n => n, 7⟩).delays.length ∧
    (3 * min (PLEXUS_RETRY_BASE_MS * 2 ^ 0) PLEXUS_RETRY_MAX_MS / 4 ≤
      ((flush ⟨strB "dev-001", [⟨strB "temp", PVal.num (strB "1"), 5, []⟩],
        0, 0, 0, 0, 0, 0, 0, emptyMeta, emptyStore⟩
      ⟨fun n => if n = 0 then PErr.network else PErr.ok, fun n => n, 7⟩).delays.get
        ⟨0, by decide⟩)) := by
  refine ⟨(C7_retry_ceiling_and_backoff_bounds _ _).1, by decide, ?_⟩
  exact ((C7_retry_ceiling_and_backoff_bounds _ _).2.2 0 (by decide)).1

/-- C4 (amended): rate-limit cooldown behaviour of `plexus_flush`, for a
client with an empty persistent ring.  (a) When attempt `a + 1` of the
retry loop is rate-limited after `a` retryable failures, the flush returns
rate-limited having made exactly `a + 1` attempts, arms the cooldown
deadline `now + PLEXUS_RATE_LIMIT_COOLDOWN_MS` (computed mod `2^32` from
the tick reading taken at that moment), and leaves the queue unchanged.
(b) While the armed deadline is NONZERO and not yet elapsed, every
`plexus_flush` call returns rate-limited with no transmission and no state
change at all.  (c) Once the deadline has elapsed, a flush with data
proceeds to attempt delivery again.  (The amendment to the claim is the
nonzero proviso in (b): a deadline that wraps to exactly 0 is
indistinguishable from the no-cooldown sentinel, see the counterexample.) -/
theorem C4_rate_limit_cooldown :
    (∀ (st : St) (hal : Hal) (p : List Nat) (a : Nat),
      st.rateLimitUntil = 0 →
      st.meta.count = 0 →
      st.metrics ≠ [] →
      serialize st.sourceId st.metrics = some p →
      a < PLEXUS_MAX_RETRIES →
      (∀ i, i < a → retryableErr (hal.post i) = true) →
      hal.post a = PErr.rateLimit →
      (flush st hal).err = PErr.rateLimit ∧
      (flush st hal).attempts = a + 1 ∧
      (flush st hal).st.rateLimitUntil =
        (hal.tick a % U32 + PLEXUS_RATE_LIMIT_COOLDOWN_MS) % U32 ∧
      (flush st hal).st.metrics = st.metrics) ∧
    (∀ (st : St) (hal : Hal),
      st.rateLimitUntil > 0 →
      tickElapsed (hal.tick 0) st.rateLimitUntil = false →
      flush st hal = ⟨PErr.rateLimit, st, [], 0, []⟩) ∧
    (∀ (st : St) (hal : Hal) (p : List Nat),
      st.rateLimitUntil > 0 →
      tickElapsed (hal.tick 0) st.rateLimitUntil = true →
      st.meta.count = 0 →
      st.metrics ≠ [] →
      serialize st.sourceId st.metrics = some p →
      1 ≤ (flush st hal).attempts) := by
  refine ⟨?_, ?_, ?_⟩
  · intro st hal p a h0 hcount hne hser hafuel hpre hrl
    have hrr := retryGo_rate_limited hal PLEXUS_MAX_RETRIES a 0 0 hafuel
      (by intro i hi; simpa using hpre i hi) (by simpa using hrl)
    unfold flush flushFrom
    rw [if_neg (by omega)]
    rw [flushMain_view st hal 0 p hcount hne hser]
    dsimp only
    rw [if_neg (by rw [hrr.1]; decide), hrr.2.2]
    dsimp only
    split
    · exact ⟨hrr.1, hrr.2.1, by rw [Nat.zero_add], rfl⟩
    · exact ⟨hrr.1, hrr.2.1, by rw [Nat.zero_add], rfl⟩
  · intro st hal hpos hne
    unfold flush flushFrom
    rw [if_pos hpos, if_pos (by rw [hne]; rfl)]
  · intro st hal p hpos helap hcount hne hser
    unfold flush flushFrom
    rw [if_pos hpos, if_neg (by rw [helap]; exact fun h => nomatch h)]
    have hview := flushMain_view { st with rateLimitUntil := 0 } hal 1 p
      (by dsimp only; exact hcount) (by dsimp only; exact hne)
      (by dsimp only; exact hser)
    rw [hview]
    dsimp only
    have hge := retryGo_attempts_ge hal PLEXUS_MAX_RETRIES 0 0 0 1 [] PErr.network
      (by unfold PLEXUS_MAX_RETRIES; omega)
    split
    · dsimp only; omega
    · split
      · dsimp only; omega
      · dsimp only; omega

/-- Witness for C4 at concrete inputs: (a) a flush whose very first attempt
is rate-limited arms the deadline `1000 + 30000 = 31000` and keeps the
queue; (b) a later flush at tick 1000 against that deadline fast-fails with
no attempt; (c) a flush at tick 31000 (deadline elapsed) attempts delivery
again. -/
theorem C4_rate_limit_cooldown_witness :
    ((flush stFix halRL).err = PErr.rateLimit ∧
     (flush stFix halRL).attempts = 0 + 1 ∧
     (flush stFix halRL).st.rateLimitUntil =
       (halRL.tick 0 % U32 + PLEXUS_RATE_LIMIT_COOLDOWN_MS) % U32 ∧
     (flush stFix halRL).st.metrics = stFix.metrics) ∧
    flush stFixCooldown halOkEarly = ⟨PErr.rateLimit, stFixCooldown, [], 0, []⟩ ∧
    1 ≤ (flush stFixCooldown halOkLate).attempts := by
  refine ⟨?_, ?_, ?_⟩
  · exact C4_rate_limit_cooldown.1 stFix halRL
      (serializeBody stFix.sourceId stFix.metrics) 0 rfl rfl
      (by decide) rfl (by decide) (by intro i hi; omega) rfl
  · exact C4_rate_limit_cooldown.2.1 stFixCooldown halOkEarly (by decide) (by decide)
  · exact C4_rate_limit_cooldown.2.2 stFixCooldown halOkLate
      (serializeBody stFixCooldown.sourceId stFixCooldown.metrics)
      (by decide) (by decide) rfl (by decide) rfl

/-- Counterexample to C4 as stated: with the monotonic clock at
`2^32 - 30000` ms, a rate-limited flush arms `now + 30000`, which wraps to
0 — the inactive-cooldown sentinel.  The very next flush call, one
millisecond later (well before the conceptual deadline), performs a
delivery attempt and succeeds instead of returning rate-limited. -/
theorem C4_rate_limit_cooldown_counterexample :
    (flush stFix halRLWrap).err = PErr.rateLimit ∧
    (flush stFix halRLWrap).st.rateLimitUntil = 0 ∧
    1 ≤ (flush (flush stFix halRLWrap).st halOkWrap).attempts ∧
    (flush (flush stFix halRLWrap).st halOkWrap).err = PErr.ok := by
  refine ⟨by decide, by decide, by decide, by decide⟩

/-- C5: the persistent ring buffer never holds more than
`PLEXUS_PERSIST_MAX_BATCHES` batches: pushing any sequence of failed
batches into the empty ring leaves an occupied-slot count of
`min (number pushed) PLEXUS_PERSIST_MAX_BATCHES`; a push into a full ring
advances both head and tail by one slot (evicting exactly the oldest
batch); and draining afterwards over a transport that accepts every batch
returns exactly the retained (most recent `PLEXUS_PERSIST_MAX_BATCHES`)
batches in the order they were pushed. -/
theorem C5_ring_capacity_eviction_fifo (bs : List (List Nat)) (hal : Hal)
    (meta : Meta) (store : Store) (b : List Nat)
    (hok : ∀ i, hal.post i = PErr.ok) (hne : ∀ x ∈ bs, x ≠ [])
    (hfull : meta.count ≥ PLEXUS_PERSIST_MAX_BATCHES) :
    (pushAll emptyMeta emptyStore bs).1.count
      = min bs.length PLEXUS_PERSIST_MAX_BATCHES ∧
    (pushAll emptyMeta emptyStore bs).1.count ≤ PLEXUS_PERSIST_MAX_BATCHES ∧
    ((ringPush meta store b).1.head
        = (meta.head + 1) % PLEXUS_PERSIST_MAX_BATCHES ∧
     (ringPush meta store b).1.tail
        = (meta.tail + 1) % PLEXUS_PERSIST_MAX_BATCHES) ∧
    (drainGo hal (pushAll emptyMeta emptyStore bs).1.count
        (pushAll emptyMeta emptyStore bs).1
        (pushAll emptyMeta emptyStore bs).2 [] 0).sent
      = bs.drop (bs.length - PLEXUS_PERSIST_MAX_BATCHES) := by
  have hrep := pushAll_rep bs emptyMeta emptyStore [] ringRep_empty
  rw [pushAllRetained_drop] at hrep
  have hcount : (pushAll emptyMeta emptyStore bs).1.count
      = (bs.drop (bs.length - PLEXUS_PERSIST_MAX_BATCHES)).length := hrep.1
  have hdroplen : (bs.drop (bs.length - PLEXUS_PERSIST_MAX_BATCHES)).length
      = min bs.length PLEXUS_PERSIST_MAX_BATCHES := by
    simp only [List.length_drop, PLEXUS_PERSIST_MAX_BATCHES]
    omega
  refine ⟨by rw [hcount, hdroplen], ?_, ?_, ?_⟩
  · rw [hcount, hdroplen]
    exact min_le_right _ _
  · have h8 : meta.count ≥ 8 := hfull
    unfold ringPush PLEXUS_PERSIST_MAX_BATCHES
    rw [if_pos h8]
    exact ⟨rfl, rfl⟩
  · have hne2 : ∀ x ∈ bs.drop (bs.length - PLEXUS_PERSIST_MAX_BATCHES), x ≠ [] :=
      fun x hx => hne x (List.drop_subset _ bs hx)
    have hd := (drain_rep hal hok _ _ _ [] 0 hrep hne2).1
    simpa using hd

/-- Witness for C5 at concrete inputs: pushing the two nonempty batches
`[1]` and `[2]` into the empty ring gives count 2; a push into a full ring
(count 8) advances head and tail from slot 2 to slot 3; and draining over
an always-successful transport returns both batches in push order. -/
theorem C5_ring_capacity_eviction_fifo_witness :
    (⟨2, 2, 8⟩ : Meta).count ≥ PLEXUS_PERSIST_MAX_BATCHES ∧
    ((pushAll emptyMeta emptyStore [[1], [2]]).1.count
        = min ([[1], [2]] : List (List Nat)).length PLEXUS_PERSIST_MAX_BATCHES ∧
     (pushAll emptyMeta emptyStore [[1], [2]]).1.count
        ≤ PLEXUS_PERSIST_MAX_BATCHES ∧
     ((ringPush ⟨2, 2, 8⟩ emptyStore [9]).1.head
         = ((2 : Nat) + 1) % PLEXUS_PERSIST_MAX_BATCHES ∧
      (ringPush ⟨2, 2, 8⟩ emptyStore [9]).1.tail
         = ((2 : Nat) + 1) % PLEXUS_PERSIST_MAX_BATCHES) ∧
     (drainGo halOkEarly (pushAll emptyMeta emptyStore [[1], [2]]).1.count
        (pushAll emptyMeta emptyStore [[1], [2]]).1
        (pushAll emptyMeta emptyStore [[1], [2]]).2 [] 0).sent
       = ([[1], [2]] : List (List Nat)).drop
           (([[1], [2]] : List (List Nat)).length - PLEXUS_PERSIST_MAX_BATCHES)) :=
  ⟨by decide,
   C5_ring_capacity_eviction_fifo [[1], [2]] halOkEarly ⟨2, 2, 8⟩ emptyStore [9]
     (fun i => rfl) (by decide) (by decide)⟩


/-! ## Helper lemmas for the queue-capacity invariant (C9) -/

theorem flushMain_metrics_cases (st : St) (hal : Hal) (t0 : Nat) :
    (flushMain st hal t0).st.metrics = st.metrics ∨
    (flushMain st hal t0).st.metrics = [] := by
  unfold flushMain
  dsimp only
  split
  · exact Or.inl rfl
  · split
    · exact Or.inl rfl
    · split
      · exact Or.inr rfl
      · split
        · exact Or.inl rfl
        · exact Or.inl rfl

theorem flushFrom_metrics_cases (st : St) (hal : Hal) (t0 : Nat) :
    (flushFrom st hal t0).st.metrics = st.metrics ∨
    (flushFrom st hal t0).st.metrics = [] := by
  unfold flushFrom
  split
  · split
    · exact Or.inl rfl
    · exact flushMain_metrics_cases _ _ _
  · exact flushMain_metrics_cases _ _ _

theorem flushFrom_len (st : St) (hal : Hal) (t0 : Nat)
    (h : st.metrics.length ≤ PLEXUS_MAX_METRICS) :
    (flushFrom st hal t0).st.metrics.length ≤ PLEXUS_MAX_METRICS := by
  rcases flushFrom_metrics_cases st hal t0 with hc | hc <;> rw [hc]
  · exact h
  · exact Nat.zero_le _

theorem flush_len (st : St) (hal : Hal)
    (h : st.metrics.length ≤ PLEXUS_MAX_METRICS) :
    (flush st hal).st.metrics.length ≤ PLEXUS_MAX_METRICS :=
  flushFrom_len st hal 0 h

theorem addMetric_len (st : St) (name : List Nat) (v : PVal) (ts : Nat)
    (hal : Hal) (h : st.metrics.length ≤ PLEXUS_MAX_METRICS) :
    (addMetric st name v ts hal).st.metrics.length ≤ PLEXUS_MAX_METRICS := by
  unfold addMetric flush
  dsimp only
  split
  · exact h
  · split
    · exact h
    · split
      · exact h
      · rename_i hq
        generalize (if ts > 0 then ts else hal.wallMs) = w
        have hlen1 : ({ st with metrics := st.metrics ++
            [⟨name, v, w, []⟩] } : St).metrics.length ≤ PLEXUS_MAX_METRICS := by
          simp only [List.length_append, List.length_singleton]
          omega
        repeat' split
        all_goals first
          | exact flush_len _ hal hlen1
          | exact hlen1

theorem plexusTick_len (st : St) (hal : Hal)
    (h : st.metrics.length ≤ PLEXUS_MAX_METRICS) :
    (plexusTick st hal).st.metrics.length ≤ PLEXUS_MAX_METRICS := by
  unfold plexusTick
  repeat' first
    | split
    | dsimp only
  all_goals first
    | exact h
    | exact flushFrom_len st hal 1 h

theorem runOp_len (st : St) (oh : Op × Hal)
    (h : st.metrics.length ≤ PLEXUS_MAX_METRICS) :
    (runOp st oh).metrics.length ≤ PLEXUS_MAX_METRICS := by
  rcases oh with ⟨op, hal⟩
  cases op with
  | opSendNumber name repr => exact addMetric_len st name (PVal.num repr) 0 hal h
  | opSendNumberTs name repr ts => exact addMetric_len st name (PVal.num repr) ts hal h
  | opSendString name s =>
    show (sendString st name s hal).st.metrics.length ≤ PLEXUS_MAX_METRICS
    unfold sendString
    split
    · exact h
    · exact addMetric_len st name (PVal.str s) 0 hal h
  | opSendBool name b => exact addMetric_len st name (PVal.bval b) 0 hal h
  | opFlush => exact flush_len st hal h
  | opTick => exact plexusTick_len st hal h
  | opClear => exact Nat.zero_le _

theorem runOps_len (ohs : List (Op × Hal)) :
    ∀ (st : St), st.metrics.length ≤ PLEXUS_MAX_METRICS →
    (runOps st ohs).metrics.length ≤ PLEXUS_MAX_METRICS := by
  induction ohs with
  | nil => intro st h; exact h
  | cons oh rest ih => intro st h; exact ih _ (runOp_len st oh h)

/-- C9: (1) starting from any client whose queue respects the capacity
bound, every sequence of client operations (sends, flushes, ticks, clears)
leaves `pending_count ≤ PLEXUS_MAX_METRICS`; and every rejected enqueue is
a pure no-op on the client state: (2) a name of
`PLEXUS_MAX_METRIC_NAME_LEN` bytes or more fails string-too-long, (3) a
name that is empty or contains a byte outside printable ASCII fails
invalid-argument, (4) a full queue fails buffer-full (overflow rejected,
never dropped or overwritten), and (5) a string value of
`PLEXUS_MAX_STRING_VALUE_LEN` bytes or more fails string-too-long — in
every rejection case the returned state is exactly the input state, so
`pending_count` and all previously queued metric records are unchanged. -/
theorem C9_queue_capacity_and_rejection_frame
    (st stF : St) (hal : Hal) (ohs : List (Op × Hal))
    (nameL nameI nameO s : List Nat) (v : PVal) (ts : Nat)
    (hcap : pendingCount st ≤ PLEXUS_MAX_METRICS)
    (hL : nameL.length ≥ PLEXUS_MAX_METRIC_NAME_LEN)
    (hIlen : nameI.length < PLEXUS_MAX_METRIC_NAME_LEN)
    (hIbad : isValidMetricName nameI = false)
    (hOlen : nameO.length < PLEXUS_MAX_METRIC_NAME_LEN)
    (hOok : isValidMetricName nameO = true)
    (hOfull : stF.metrics.length ≥ PLEXUS_MAX_METRICS)
    (hS : s.length ≥ PLEXUS_MAX_STRING_VALUE_LEN) :
    pendingCount (runOps st ohs) ≤ PLEXUS_MAX_METRICS ∧
    addMetric st nameL v ts hal = ⟨PErr.stringTooLong, st, none⟩ ∧
    addMetric st nameI v ts hal = ⟨PErr.invalidArg, st, none⟩ ∧
    addMetric stF nameO v ts hal = ⟨PErr.bufferFull, stF, none⟩ ∧
    sendString st nameO s hal = ⟨PErr.stringTooLong, st, none⟩ := by
  refine ⟨runOps_len ohs st hcap, ?_, ?_, ?_, ?_⟩
  · unfold addMetric
    rw [if_pos hL]
  · unfold addMetric
    rw [if_neg (by omega), if_pos (by simp [hIbad])]
  · unfold addMetric
    rw [if_neg (by omega), if_neg (by simp [hOok]), if_pos hOfull]
  · unfold sendString
    rw [if_pos hS]

/-- Witness for C9 at concrete inputs: a one-metric client running one send
operation stays within capacity; a 64-byte name, a name consisting of a
newline byte, a send into a 32-record queue, and a 128-byte string value
are each rejected with the corresponding error and an unchanged state. -/
theorem C9_queue_capacity_and_rejection_frame_witness :
    pendingCount stFix ≤ PLEXUS_MAX_METRICS ∧
    (pendingCount (runOps stFix [(Op.opSendNumber (strB "t") [49], halOkEarly)])
        ≤ PLEXUS_MAX_METRICS ∧
     addMetric stFix (List.replicate 64 97) (PVal.num [49]) 0 halOkEarly
        = ⟨PErr.stringTooLong, stFix, none⟩ ∧
     addMetric stFix [10] (PVal.num [49]) 0 halOkEarly
        = ⟨PErr.invalidArg, stFix, none⟩ ∧
     addMetric stFull [97] (PVal.num [49]) 0 halOkEarly
        = ⟨PErr.bufferFull, stFull, none⟩ ∧
     sendString stFix [97] (List.replicate 128 98) halOkEarly
        = ⟨PErr.stringTooLong, stFix, none⟩) :=
  ⟨by decide,
   C9_queue_capacity_and_rejection_frame stFix stFull halOkEarly
     [(Op.opSendNumber (strB "t") [49], halOkEarly)]
     (List.replicate 64 97) [10] [97] (List.replicate 128 98)
     (PVal.num [49]) 0
     (by decide) (by decide) (by decide) (by decide) (by decide) (by decide)
     (by decide) (by decide)⟩


/-! ## Helper lemmas for the flush error frame (C10) -/

theorem ringPush_writes (m : Meta) (s : Store) (b : List Nat) :
    (ringPush m s b).2 m.head = some ⟨crc32 b, b.length, b⟩ := by
  unfold ringPush
  dsimp only
  split <;> simp

theorem flushFrom_err_frame (st : St) (hal : Hal) (t0 : Nat) :
    (flushFrom st hal t0).err ≠ PErr.ok →
    (flushFrom st hal t0).st.metrics = st.metrics := by
  unfold flushFrom flushMain
  repeat' first
    | split
    | dsimp only
  all_goals intro h
  all_goals first
    | rfl
    | exact absurd rfl h

/-- C10: a `plexus_flush` call that returns an error never touches the live
metric queue.  (1) For every client and HAL, an error return (rate-limited
fast-fail, empty-queue no-data, serialization failure, auth failure, rate
limit, or exhausted retries) leaves the queued metric records — and hence
`metric_count` — exactly as they were.  (2) In the failure case where the
batch was serialized (here from a client with no armed cooldown and an
empty ring) and the payload plus its 8-byte header fits the persist
buffer, the batch is additionally written to the ring slot at head — so
the same batch then exists both in durable storage and, by (1), still in
the in-RAM queue. -/
theorem C10_flush_error_frame
    (st0 st : St) (hal0 hal : Hal) (p : List Nat)
    (herr0 : (flush st0 hal0).err ≠ PErr.ok)
    (hrl : st.rateLimitUntil = 0)
    (hcount : st.meta.count = 0)
    (hne : st.metrics ≠ [])
    (hser : serialize st.sourceId st.metrics = some p)
    (hfit : p.length + 8 ≤ PLEXUS_JSON_BUFFER_SIZE)
    (herr : (flush st hal).err ≠ PErr.ok) :
    (flush st0 hal0).st.metrics = st0.metrics ∧
    ((flush st hal).st.metrics = st.metrics ∧
     (flush st hal).st.store st.meta.head =
       some ⟨crc32 p, p.length, p⟩) := by
  have hmain : flush st hal = flushMain st hal 0 := by
    unfold flush flushFrom
    rw [if_neg (by omega)]
  refine ⟨flushFrom_err_frame st0 hal0 0 herr0, ?_⟩
  rw [hmain, flushMain_view st hal 0 p hcount hne hser]
  rw [hmain, flushMain_view st hal 0 p hcount hne hser] at herr
  dsimp only
  dsimp only at herr
  split
  · rename_i hok
    rw [if_pos hok] at herr
    exact absurd rfl herr
  · repeat' first
      | split
      | dsimp only
    all_goals exact ⟨rfl, ringPush_writes _ _ _⟩

/-- Witness for C10 at concrete inputs: a cooldown fast-fail leaves the
one-metric queue of `stFixCooldown` unchanged, and a flush of `stFix` over
an all-network-error HAL exhausts its retries, keeps the queue, and writes
the serialized batch into ring slot 0. -/
theorem C10_flush_error_frame_witness :
    stFix.rateLimitUntil = 0 ∧
    ((flush stFixCooldown halOkEarly).st.metrics = stFixCooldown.metrics ∧
     ((flush stFix halNet).st.metrics = stFix.metrics ∧
      (flush stFix halNet).st.store stFix.meta.head =
        some ⟨crc32 (serializeBody stFix.sourceId stFix.metrics),
              (serializeBody stFix.sourceId stFix.metrics).length,
              serializeBody stFix.sourceId stFix.metrics⟩)) :=
  ⟨rfl,
   C10_flush_error_frame stFixCooldown stFix halOkEarly halNet
     (serializeBody stFix.sourceId stFix.metrics)
     (by decide) rfl rfl (by decide) rfl (by decide) (by decide)⟩


/-! ## Helper lemma shared by the auto-flush claims -/

theorem flush_attempts_le (st : St) (hal : Hal) :
    (flush st hal).attempts ≤ PLEXUS_MAX_RETRIES := by
  rcases flushFrom_attempts_delays st hal 0 with ⟨ha, _⟩ | ⟨st1, pidx, t1, ha, _, _⟩
  · unfold flush
    rw [ha]
    unfold PLEXUS_MAX_RETRIES
    omega
  · have hspec := retryGo_spec hal PLEXUS_MAX_RETRIES 0 0 pidx t1 [] PErr.network
      rfl rfl (by intro i h; simp at h)
    unfold flush
    rw [ha]
    exact le_of_le_of_eq hspec.1 (by omega)

/-- C3 (amended): for an enqueue that passes validation, the auto-flush
trigger is purely count-based — it fires exactly when the queue length
after the append reaches the effective threshold (`auto_flush_count`
override, else `PLEXUS_AUTO_FLUSH_COUNT`), a condition that reads no
clock, so the time threshold is checked only from `plexus_tick` — but the
triggered flush is the FULL `plexus_flush`, whose delivery attempts are
bounded only by `PLEXUS_MAX_RETRIES` (not by one). -/
theorem C3_count_threshold_full_flush (st : St) (hal : Hal)
    (name : List Nat) (v : PVal) (ts : Nat)
    (hn1 : name.length < PLEXUS_MAX_METRIC_NAME_LEN)
    (hn2 : isValidMetricName name = true)
    (hn3 : st.metrics.length < PLEXUS_MAX_METRICS) :
    ((addMetric st name v ts hal).flushed.isSome = true ↔
      st.metrics.length + 1 ≥
        (if st.autoFlushCount > 0 then st.autoFlushCount
         else PLEXUS_AUTO_FLUSH_COUNT)) ∧
    (∀ f, (addMetric st name v ts hal).flushed = some f →
      f.attempts ≤ PLEXUS_MAX_RETRIES) := by
  unfold addMetric
  rw [if_neg (by omega), if_neg (by simp [hn2]), if_neg (by omega)]
  dsimp only
  generalize (if ts > 0 then ts else hal.wallMs) = w
  generalize hT : (if st.autoFlushCount > 0 then st.autoFlushCount
      else PLEXUS_AUTO_FLUSH_COUNT) = T
  have hTpos : T > 0 := by
    rw [← hT]
    split
    · omega
    · unfold PLEXUS_AUTO_FLUSH_COUNT
      omega
  constructor
  · by_cases hc : st.metrics.length + 1 ≥ T
    · rw [if_pos ⟨hTpos, by simpa using hc⟩]
      simp [hc]
    · rw [if_neg (fun hand => hc (by simpa using hand.2))]
      simp [hc]
  · intro f hf
    split at hf
    · exact Option.some.inj hf ▸ flush_attempts_le _ hal
    · exact Option.noConfusion hf

/-- Witness for C3 (amended) at concrete inputs: adding a second metric to
a one-metric client with the default threshold 16 does not trigger a
flush (2 < 16), matching the count-based characterization, and any
triggered flush would make at most `PLEXUS_MAX_RETRIES` attempts. -/
theorem C3_count_threshold_full_flush_witness :
    stFix.metrics.length < PLEXUS_MAX_METRICS ∧
    (((addMetric stFix (strB "u") (PVal.num [49]) 0 halNet).flushed.isSome = true ↔
       stFix.metrics.length + 1 ≥
         (if stFix.autoFlushCount > 0 then stFix.autoFlushCount
          else PLEXUS_AUTO_FLUSH_COUNT)) ∧
     (∀ f, (addMetric stFix (strB "u") (PVal.num [49]) 0 halNet).flushed = some f →
       f.attempts ≤ PLEXUS_MAX_RETRIES)) :=
  ⟨by decide,
   C3_count_threshold_full_flush stFix halNet (strB "u") (PVal.num [49]) 0
     (by decide) (by decide) (by decide)⟩

/-- Counterexample to C3 as stated: with `auto_flush_count` set to 2, the
enqueue that makes the count reach the threshold triggers an auto-flush
that — against an all-network-error transport — performs THREE delivery
attempts with TWO backoff delays, not "exactly one delivery attempt, no
retry loop and no backoff delays": `maybe_auto_flush` calls the full
`plexus_flush`. -/
theorem C3_count_threshold_single_attempt_counterexample :
    ((addMetric { stFix with autoFlushCount := 2 } (strB "u") (PVal.num [49]) 0
        halNet).flushed.map (fun f => (f.attempts, f.delays.length)))
      = some (3, 2) := by decide


/-- C2: refuted by the source.  `plexus_tick` (plexus.c lines 819-851)
checks only the metric-queue flush timer: on an empty queue it returns
success immediately without reading the clock, performing no command poll
and no heartbeat even though every interval has long elapsed (first
conjunct); and on a non-empty queue with the flush interval elapsed its
only action is the time-based flush (second conjunct) — the function body
contains no poll step (a) and no heartbeat step (c) at all. -/
theorem C2_tick_empty_queue_no_poll_no_heartbeat :
    plexusTick (clearQueue stFix) halOkLate = ⟨PErr.ok, clearQueue stFix, none⟩ ∧
    (plexusTick stFix halOkLate).flushed.isSome = true :=
  ⟨rfl, by decide⟩

/-- C1: refuted by the source.  `plexus_poll_commands`
(plexus_commands.c lines 41-177) never runs the character-set whitelist
(`plexus_internal_is_url_safe`, plexus.c lines 138-151) on the extracted
command id: for a response whose command id is `../../evil` — rejected by
the whitelist, as the last conjunct shows — the registered handler is
invoked anyway and the id is embedded verbatim in the outbound result
URL `<base>/api/commands/../../evil/result`. -/
theorem C1_command_id_validation_bypass :
    (pollCommands (strB "https://app.plexus.company/api/ingest") true
        cmdInjResponse).handlerInvoked = true ∧
    (pollCommands (strB "https://app.plexus.company/api/ingest") true
        cmdInjResponse).cmdId = strB "../../evil" ∧
    (pollCommands (strB "https://app.plexus.company/api/ingest") true
        cmdInjResponse).resultUrl =
      some (strB "https://app.plexus.company/api/commands/../../evil/result") ∧
    isUrlSafe (strB "../../evil") = false := by decide


/-! ## Occurrence counting in the serializer output (claim C8) -/

theorem cntP_split (pat : List Nat) : ∀ (A B : List Nat),
    cntP pat (A ++ B) = cnt2 pat A B + cntP pat B := by
  intro A
  induction A with
  | nil => intro B; simp [cnt2]
  | cons c t ih =>
    intro B
    show (if leadsWith pat (c :: (t ++ B)) then 1 else 0) + cntP pat (t ++ B)
      = ((if leadsWith pat (c :: t ++ B) then 1 else 0) + cnt2 pat t B) + cntP pat B
    rw [ih B]
    simp only [List.cons_append]
    omega

theorem cnt2_append (pat : List Nat) : ∀ (A A2 B : List Nat),
    cnt2 pat (A ++ A2) B = cnt2 pat A (A2 ++ B) + cnt2 pat A2 B := by
  intro A
  induction A with
  | nil => intro A2 B; simp [cnt2]
  | cons c t ih =>
    intro A2 B
    show (if leadsWith pat (c :: (t ++ A2) ++ B) then 1 else 0) + cnt2 pat (t ++ A2) B
      = ((if leadsWith pat (c :: t ++ (A2 ++ B)) then 1 else 0) + cnt2 pat t (A2 ++ B))
        + cnt2 pat A2 B
    rw [ih A2 B]
    simp only [List.cons_append, List.append_assoc]
    omega

theorem leadsWith_ne34 (c : Nat) (X : List Nat) (h : c ≠ 34) :
    leadsWith metricPat (c :: X) = false := by
  simp only [metricPat, List.cons_append, leadsWith]
  rw [if_neg (fun hh => h hh.symm)]

theorem cnt2_noquote : ∀ (A B : List Nat), (∀ c ∈ A, c ≠ 34) →
    cnt2 metricPat A B = 0 := by
  intro A
  induction A with
  | nil => intro B _; rfl
  | cons c t ih =>
    intro B h
    show (if leadsWith metricPat (c :: t ++ B) then 1 else 0) + cnt2 metricPat t B = 0
    rw [List.cons_append, leadsWith_ne34 c _ (h c (by simp)), ih B (fun x hx => h x (by simp [hx]))]
    simp

theorem leadsWith_metric_tail : ∀ (p s B : List Nat),
    (∀ c ∈ p, c ≠ 34) → (∀ c ∈ s, c ≠ 34) →
    leadsWith (p ++ [34, 58]) (s ++ 34 :: B)
      = (if s = p then leadsWith [58] B else false) := by
  intro p
  induction p with
  | nil =>
    intro s B _ hs
    cases s with
    | nil => simp [leadsWith]
    | cons c t =>
      have hc : c ≠ 34 := hs c (by simp)
      simp only [List.nil_append, List.cons_append, leadsWith]
      rw [if_neg (fun hh => hc hh.symm), if_neg (by simp)]
  | cons a p' ih =>
    intro s B hp hs
    have ha : a ≠ 34 := hp a (by simp)
    cases s with
    | nil =>
      simp only [List.nil_append, List.cons_append, leadsWith]
      rw [if_neg (fun hh => ha hh), if_neg (by simp)]
    | cons c t =>
      simp only [List.cons_append, leadsWith, List.append_eq]
      by_cases hac : a = c
      · rw [if_pos hac]
        rw [ih t B (fun x hx => hp x (by simp [hx])) (fun x hx => hs x (by simp [hx]))]
        by_cases htp : t = p'
        · rw [if_pos htp, if_pos (by rw [htp, hac])]
        · rw [if_neg htp, if_neg (by simp only [List.cons.injEq]; exact fun hh => htp hh.2)]
      · rw [if_neg hac,
          if_neg (by simp only [List.cons.injEq]; exact fun hh => hac hh.1.symm)]

theorem escChunk_safe (c : Nat) (h : safeByte c = true) : escChunk c = [c] := by
  simp only [safeByte, Bool.and_eq_true, decide_eq_true_eq] at h
  unfold escChunk
  rw [if_neg h.2.1, if_neg h.2.2, if_neg (by omega), if_neg (by omega),
    if_neg (by omega), if_neg (by omega), if_neg (by omega), if_neg (by omega)]

theorem escBody_safe : ∀ (s : List Nat), safeStr s = true → escBody s = s := by
  intro s
  induction s with
  | nil => intro _; rfl
  | cons c t ih =>
    intro h
    simp only [safeStr, List.all_cons, Bool.and_eq_true] at h
    show escChunk c ++ escBody t = c :: t
    rw [escChunk_safe c h.1, ih (by simpa [safeStr] using h.2)]
    rfl

theorem safe_ne34 (s : List Nat) (h : safeStr s = true) : ∀ c ∈ s, c ≠ 34 := by
  intro c hc
  simp only [safeStr, List.all_eq_true] at h
  have := h c hc
  simp only [safeByte, Bool.and_eq_true, decide_eq_true_eq] at this
  exact this.2.1

theorem metricB_ne34 : ∀ c ∈ metricB, c ≠ 34 := by decide

theorem cnt2_esc (s B : List Nat) (hs : safeStr s = true) :
    cnt2 metricPat (esc s) B
      = (if s = metricB then (if leadsWith [58] B then 1 else 0) else 0)
        + (if leadsWith (metricB ++ [34, 58]) B then 1 else 0) := by
  have hbody := escBody_safe s hs
  show cnt2 metricPat (34 :: (escBody s ++ [34])) B = _
  rw [hbody]
  show (if leadsWith metricPat ((34 :: (s ++ [34])) ++ B) then 1 else 0)
    + cnt2 metricPat (s ++ [34]) B = _
  rw [cnt2_append]
  have h1 : leadsWith metricPat ((34 :: (s ++ [34])) ++ B)
      = (if s = metricB then leadsWith [58] B else false) := by
    show leadsWith (34 :: (metricB ++ [34, 58])) (34 :: (s ++ [34] ++ B)) = _
    simp only [leadsWith, if_pos]
    rw [show s ++ [34] ++ B = s ++ 34 :: B by simp]
    exact leadsWith_metric_tail metricB s B metricB_ne34 (safe_ne34 s hs)
  rw [h1]
  have h2 : cnt2 metricPat s ([34] ++ B) = 0 := cnt2_noquote s _ (safe_ne34 s hs)
  have h3 : cnt2 metricPat [34] B
      = (if leadsWith (metricB ++ [34, 58]) B then 1 else 0) := by
    show (if leadsWith metricPat (34 :: ([] ++ B)) then 1 else 0) + 0 = _
    simp only [List.nil_append, Nat.add_zero]
    have h4 : leadsWith metricPat (34 :: B) = leadsWith (metricB ++ [34, 58]) B := by
      simp only [metricPat, leadsWith, if_pos, List.append_eq]
    simp only [h4]
  rw [h2, h3]
  split <;> simp

theorem cnt2_esc_nonColon (s : List Nat) (c : Nat) (R : List Nat)
    (hs : safeStr s = true) (hc58 : c ≠ 58) (hc109 : c ≠ 109) :
    cnt2 metricPat (esc s) (c :: R) = 0 := by
  rw [cnt2_esc s _ hs]
  have h1 : leadsWith [58] (c :: R) = false := by
    simp only [leadsWith]
    rw [if_neg (fun hh => hc58 hh.symm)]
  have h2 : leadsWith (metricB ++ [34, 58]) (c :: R) = false := by
    simp only [metricB, List.cons_append, leadsWith]
    rw [if_neg (fun hh => hc109 hh.symm)]
  rw [h1, h2]
  simp

theorem cnt2_esc_colon (s : List Nat) (R : List Nat)
    (hs : safeStr s = true) (hne : s ≠ metricB) :
    cnt2 metricPat (esc s) (58 :: R) = 0 := by
  rw [cnt2_esc s _ hs]
  have h2 : leadsWith (metricB ++ [34, 58]) (58 :: R) = false := by
    simp only [metricB, List.cons_append, leadsWith]
    rw [if_neg (by omega)]
  rw [if_neg hne, h2]
  simp

theorem toDecGo_digits : ∀ (fuel n : Nat), ∀ c ∈ toDecGo fuel n, 48 ≤ c ∧ c ≤ 57 := by
  intro fuel
  induction fuel with
  | zero => intro n c hc; simp [toDecGo] at hc
  | succ f ih =>
    intro n c hc
    unfold toDecGo at hc
    split at hc
    · rename_i hn
      simp at hc
      omega
    · rename_i hn
      simp only [List.mem_append, List.mem_singleton] at hc
      rcases hc with hc | hc
      · exact ih _ c hc
      · have : n % 10 < 10 := Nat.mod_lt _ (by omega)
        omega

theorem cnt2_toDec (n : Nat) (B : List Nat) : cnt2 metricPat (toDec n) B = 0 :=
  cnt2_noquote _ _ (fun c hc => by have := toDecGo_digits (n + 1) n c hc; omega)

theorem tagsJson_cons_cons (kv kv2 : List Nat × List Nat)
    (rest : List (List Nat × List Nat)) :
    tagsJson (kv :: kv2 :: rest)
      = esc kv.1 ++ [58] ++ esc kv.2 ++ [44] ++ tagsJson (kv2 :: rest) := by
  simp [tagsJson, List.intersperse]

theorem tagsJson_single (kv : List Nat × List Nat) :
    tagsJson [kv] = esc kv.1 ++ [58] ++ esc kv.2 := by
  simp [tagsJson, List.intersperse]

theorem cnt2_tags : ∀ (tags : List (List Nat × List Nat)) (B : List Nat),
    (∀ kv ∈ tags, (safeStr kv.1 = true ∧ safeStr kv.2 = true) ∧ kv.1 ≠ metricB) →
    cnt2 metricPat (tagsJson tags) (125 :: B) = 0 := by
  intro tags
  induction tags with
  | nil => intro B _; rfl
  | cons kv rest ih =>
    intro B h
    have hk := (h kv (by simp)).1.1
    have hv := (h kv (by simp)).1.2
    have hne := (h kv (by simp)).2
    cases rest with
    | nil =>
      rw [tagsJson_single, cnt2_append, cnt2_append]
      simp only [List.cons_append, List.nil_append]
      rw [cnt2_esc_colon _ _ hk hne, cnt2_noquote [58] _ (by decide),
        cnt2_esc_nonColon _ _ _ hv (by decide) (by decide)]
    | cons kv2 rest2 =>
      have hrest : ∀ x ∈ kv2 :: rest2,
          (safeStr x.1 = true ∧ safeStr x.2 = true) ∧ x.1 ≠ metricB :=
        fun x hx => h x (by simp [hx])
      rw [tagsJson_cons_cons, cnt2_append, cnt2_append, cnt2_append, cnt2_append]
      simp only [List.cons_append, List.nil_append]
      rw [cnt2_esc_colon _ _ hk hne, cnt2_noquote [58] _ (by decide),
        cnt2_esc_nonColon _ _ _ hv (by decide) (by decide),
        cnt2_noquote [44] _ (by decide), ih _ hrest]

theorem pointJson_eq (sid : List Nat) (m : Metric) :
    pointJson sid m
      = strB "\x7b\"metric\":" ++ esc m.name ++ strB ",\"value\":" ++
        valueJson m.value ++ tsBlock m.timestampMs ++ strB ",\"source_id\":" ++
        esc sid ++ tagBlock m.tags ++ [125] := rfl

theorem cnt2_pm (B : List Nat) :
    cnt2 metricPat [123, 34, 109, 101, 116, 114, 105, 99, 34, 58] B = 1 := by
  simp [cnt2, leadsWith, metricPat, metricB]

theorem cnt2_vp (B : List Nat) :
    cnt2 metricPat [44, 34, 118, 97, 108, 117, 101, 34, 58] B = 0 := by
  simp [cnt2, leadsWith, metricPat, metricB]

theorem cnt2_tsp (B : List Nat) :
    cnt2 metricPat [44, 34, 116, 105, 109, 101, 115, 116, 97, 109, 112, 34, 58] B = 0 := by
  simp [cnt2, leadsWith, metricPat, metricB]

theorem cnt2_sp (B : List Nat) :
    cnt2 metricPat [44, 34, 115, 111, 117, 114, 99, 101, 95, 105, 100, 34, 58] B = 0 := by
  simp [cnt2, leadsWith, metricPat, metricB]

theorem cnt2_tagp (B : List Nat) :
    cnt2 metricPat [44, 34, 116, 97, 103, 115, 34, 58, 123] B = 0 := by
  simp [cnt2, leadsWith, metricPat, metricB]

theorem cnt2_hdr (B : List Nat) :
    cnt2 metricPat [123, 34, 115, 100, 107, 34, 58, 34, 99, 47, 48, 46, 53, 46,
      54, 34, 44, 34, 112, 111, 105, 110, 116, 115, 34, 58, 91] B = 0 := by
  simp [cnt2, leadsWith, metricPat, metricB]

theorem tsBlock_head (ts : Nat) (R : List Nat) :
    ∃ R2, tsBlock ts ++ 44 :: R = 44 :: R2 := by
  unfold tsBlock
  split
  · refine ⟨[34, 116, 105, 109, 101, 115, 116, 97, 109, 112, 34, 58] ++ toDec ts ++ 44 :: R, ?_⟩
    rw [show strB ",\"timestamp\":"
      = 44 :: [34, 116, 105, 109, 101, 115, 116, 97, 109, 112, 34, 58] from by decide]
    simp
  · exact ⟨R, by simp⟩

theorem tagBlock_head (tags : List (List Nat × List Nat)) (B : List Nat) :
    ∃ c R2, tagBlock tags ++ 125 :: B = c :: R2 ∧ (c = 44 ∨ c = 125) := by
  unfold tagBlock
  split
  · refine ⟨44, [34, 116, 97, 103, 115, 34, 58, 123] ++ tagsJson tags ++ [125] ++ 125 :: B,
      ?_, Or.inl rfl⟩
    rw [show strB ",\"tags\":\x7b" = 44 :: [34, 116, 97, 103, 115, 34, 58, 123] from by decide]
    simp
  · exact ⟨125, B, by simp, Or.inr rfl⟩

theorem cnt2_tsBlock (ts : Nat) (B : List Nat) :
    cnt2 metricPat (tsBlock ts) B = 0 := by
  unfold tsBlock
  split
  · rw [show strB ",\"timestamp\":"
      = [44, 34, 116, 105, 109, 101, 115, 116, 97, 109, 112, 34, 58] from by decide]
    rw [cnt2_append, cnt2_tsp, cnt2_toDec]
  · rfl

theorem cnt2_esc_before_tsBlock (s : List Nat) (ts : Nat) (R : List Nat)
    (hs : safeStr s = true) :
    cnt2 metricPat (esc s) (tsBlock ts ++ 44 :: R) = 0 := by
  obtain ⟨R2, hR⟩ := tsBlock_head ts R
  rw [hR]
  exact cnt2_esc_nonColon _ _ _ hs (by decide) (by decide)

theorem cnt2_esc_before_tagBlock (s : List Nat) (tags : List (List Nat × List Nat))
    (B : List Nat) (hs : safeStr s = true) :
    cnt2 metricPat (esc s) (tagBlock tags ++ 125 :: B) = 0 := by
  obtain ⟨c, R2, hR, hc⟩ := tagBlock_head tags B
  rw [hR]
  rcases hc with hc | hc <;> rw [hc]
  · exact cnt2_esc_nonColon _ _ _ hs (by decide) (by decide)
  · exact cnt2_esc_nonColon _ _ _ hs (by decide) (by decide)

theorem cnt2_tagBlock (tags : List (List Nat × List Nat)) (B : List Nat)
    (h : ∀ kv ∈ tags, (safeStr kv.1 = true ∧ safeStr kv.2 = true) ∧ kv.1 ≠ metricB) :
    cnt2 metricPat (tagBlock tags) (125 :: B) = 0 := by
  unfold tagBlock
  split
  · rw [show strB ",\"tags\":\x7b"
      = [44, 34, 116, 97, 103, 115, 34, 58, 123] from by decide]
    rw [cnt2_append, cnt2_append, cnt2_tagp]
    simp only [List.cons_append, List.nil_append]
    rw [cnt2_tags tags _ h, cnt2_noquote [125] _ (by decide)]
  · rfl

theorem cnt2_valueJson (v : PVal) (ts : Nat) (R : List Nat) (hv : okVal v = true) :
    cnt2 metricPat (valueJson v) (tsBlock ts ++ 44 :: R) = 0 := by
  cases v with
  | num r => exact cnt2_noquote _ _ (safe_ne34 r (by simpa [okVal] using hv))
  | str s =>
    obtain ⟨R2, hR⟩ := tsBlock_head ts R
    show cnt2 metricPat (esc s) _ = 0
    rw [hR]
    exact cnt2_esc_nonColon _ _ _ (by simpa [okVal] using hv) (by decide) (by decide)
  | bval b =>
    cases b <;> exact cnt2_noquote _ _ (by decide)

theorem cnt2_point (sid : List Nat) (m : Metric) (B : List Nat)
    (hsid : safeStr sid = true) (hm : okMetric m = true) :
    cnt2 metricPat (pointJson sid m) B = 1 := by
  simp only [okMetric, Bool.and_eq_true] at hm
  obtain ⟨⟨hname, hval⟩, htags⟩ := hm
  have htags2 : ∀ kv ∈ m.tags, (safeStr kv.1 = true ∧ safeStr kv.2 = true) ∧ kv.1 ≠ metricB := by
    intro kv hkv
    have := List.all_eq_true.mp htags kv hkv
    simp only [Bool.and_eq_true, decide_eq_true_eq] at this
    exact ⟨⟨this.1.1, this.1.2⟩, this.2⟩
  rw [pointJson_eq]
  rw [show strB "\x7b\"metric\":"
    = [123, 34, 109, 101, 116, 114, 105, 99, 34, 58] from by decide]
  rw [show strB ",\"value\":" = [44, 34, 118, 97, 108, 117, 101, 34, 58] from by decide]
  rw [show strB ",\"source_id\":"
    = [44, 34, 115, 111, 117, 114, 99, 101, 95, 105, 100, 34, 58] from by decide]
  rw [cnt2_append, cnt2_append, cnt2_append, cnt2_append, cnt2_append, cnt2_append,
    cnt2_append, cnt2_append]
  simp only [List.cons_append, List.nil_append]
  rw [cnt2_pm, cnt2_vp, cnt2_sp, cnt2_tsBlock]
  rw [cnt2_esc_nonColon m.name _ _ hname (by decide) (by decide)]
  rw [cnt2_valueJson m.value m.timestampMs _ hval]
  rw [cnt2_esc_before_tagBlock sid m.tags _ hsid]
  rw [cnt2_tagBlock m.tags _ htags2]
  rw [cnt2_noquote [125] _ (by decide)]

theorem cnt2_points (sid : List Nat) (hsid : safeStr sid = true) :
    ∀ (ms : List Metric) (B : List Nat), (∀ m ∈ ms, okMetric m = true) →
    cnt2 metricPat (((ms.map (pointJson sid)).intersperse [44]).flatten) B
      = ms.length := by
  intro ms
  induction ms with
  | nil => intro B _; rfl
  | cons m rest ih =>
    intro B h
    have hm := h m (by simp)
    cases rest with
    | nil =>
      rw [show ((List.map (pointJson sid) [m]).intersperse [44]).flatten
        = pointJson sid m from by simp]
      rw [cnt2_point sid m B hsid hm]
      rfl
    | cons m2 rest2 =>
      have hflat : ((List.map (pointJson sid) (m :: m2 :: rest2)).intersperse [44]).flatten
          = pointJson sid m ++ ([44] ++ ((List.map (pointJson sid) (m2 :: rest2)).intersperse [44]).flatten) := by
        simp [List.intersperse]
      rw [hflat, cnt2_append]
      rw [cnt2_point sid m _ hsid hm]
      have : cnt2 metricPat ([44] ++ ((List.map (pointJson sid) (m2 :: rest2)).intersperse [44]).flatten) B
          = rest2.length + 1 := by
        rw [cnt2_append, cnt2_noquote [44] _ (by decide),
          ih B (fun x hx => h x (by simp [hx]))]
        simp
      rw [this]
      simp only [List.length_cons]
      omega

theorem cntP_serializeBody (sid : List Nat) (ms : List Metric)
    (hsid : safeStr sid = true) (hms : ∀ m ∈ ms, okMetric m = true) :
    cntP metricPat (serializeBody sid ms) = ms.length := by
  unfold serializeBody
  rw [show strB "\x7b\"sdk\":\"c/0.5.6\",\"points\":["
    = [123, 34, 115, 100, 107, 34, 58, 34, 99, 47, 48, 46, 53, 46, 54, 34, 44,
       34, 112, 111, 105, 110, 116, 115, 34, 58, 91] from by decide]
  rw [show strB "]\x7d" = [93, 125] from by decide]
  rw [cntP_split, cnt2_append, cnt2_hdr, cnt2_points sid hsid ms _ hms]
  rw [show cntP metricPat [93, 125] = 0 from by decide]
  omega

theorem hexDig_ok (d : Nat) : 34 < hexDig d ∧ hexDig d ≠ 92 := by
  unfold hexDig
  split <;> omega

theorem findClose_cons92 (x : Nat) (L : List Nat) :
    findClose (92 :: x :: L) = 2 + findClose L := rfl

theorem findClose_cons1 (c : Nat) (L : List Nat) (h0 : c ≠ 0) (h92 : c ≠ 92)
    (h34 : c ≠ 34) : findClose (c :: L) = 1 + findClose L := by
  cases L with
  | nil =>
    conv_lhs => unfold findClose
    rw [if_neg h0, if_neg h92, if_neg h34]
  | cons x t =>
    conv_lhs => unfold findClose
    rw [if_neg h0, if_neg h92, if_neg h34]

theorem findClose_escBody : ∀ (s rest : List Nat),
    findClose (escBody s ++ 34 :: rest) = (escBody s).length := by
  intro s
  induction s with
  | nil =>
    intro rest
    show findClose (34 :: rest) = 0
    unfold findClose
    norm_num
  | cons c t ih =>
    intro rest
    show findClose ((escChunk c ++ escBody t) ++ 34 :: rest)
      = (escChunk c ++ escBody t).length
    by_cases hu : (c = 34 ∨ c = 92 ∨ c = 8 ∨ c = 12 ∨ c = 10 ∨ c = 13 ∨ c = 9)
    · have hchunk : ∃ x, escChunk c = [92, x] := by
        rcases hu with h | h | h | h | h | h | h <;> subst h <;> exact ⟨_, rfl⟩
      obtain ⟨x, hx⟩ := hchunk
      rw [hx]
      simp only [List.cons_append, List.nil_append, List.append_assoc]
      rw [findClose_cons92, ih rest]
      simp only [List.length_cons]
      omega
    · push_neg at hu
      obtain ⟨h34, h92, h8, h12, h10, h13, h9⟩ := hu
      by_cases hlt : c < 32
      · have hchunk : escChunk c
            = [92, 117, 48, 48, hexDig (c / 16), hexDig (c % 16)] := by
          unfold escChunk
          rw [if_neg h34, if_neg h92, if_neg h8, if_neg h12, if_neg h10,
            if_neg h13, if_neg h9, if_pos hlt]
        have hx1 := hexDig_ok (c / 16)
        have hx2 := hexDig_ok (c % 16)
        rw [hchunk]
        simp only [List.cons_append, List.nil_append, List.append_assoc]
        rw [findClose_cons92, findClose_cons1 48 _ (by omega) (by omega) (by omega),
          findClose_cons1 48 _ (by omega) (by omega) (by omega),
          findClose_cons1 _ _ (by omega) hx1.2 (by omega),
          findClose_cons1 _ _ (by omega) hx2.2 (by omega), ih rest]
        simp only [List.length_cons]
        omega
      · have hchunk : escChunk c = [c] := by
          unfold escChunk
          rw [if_neg h34, if_neg h92, if_neg h8, if_neg h12, if_neg h10,
            if_neg h13, if_neg h9, if_neg hlt]
        rw [hchunk]
        simp only [List.cons_append, List.nil_append, List.append_assoc]
        rw [findClose_cons1 c _ (by omega) h92 h34, ih rest]
        simp only [List.length_cons]
        omega

theorem unescape_q (L : List Nat) : unescape (92 :: 34 :: L) = 34 :: unescape L := by
  simp [unescape]

theorem unescape_bs (L : List Nat) : unescape (92 :: 92 :: L) = 92 :: unescape L := by
  simp [unescape]

theorem unescape_n (L : List Nat) : unescape (92 :: 110 :: L) = 10 :: unescape L := by
  simp [unescape]

theorem unescape_r (L : List Nat) : unescape (92 :: 114 :: L) = 13 :: unescape L := by
  simp [unescape]

theorem unescape_t (L : List Nat) : unescape (92 :: 116 :: L) = 9 :: unescape L := by
  simp [unescape]

theorem unescape_plain (c : Nat) (L : List Nat) (h92 : c ≠ 92) :
    unescape (c :: L) = c :: unescape L := by
  cases L with
  | nil =>
    conv_lhs => unfold unescape
    rw [if_neg h92]
  | cons x t =>
    conv_lhs => unfold unescape
    rw [if_neg h92]

theorem unescape_escBody : ∀ (s : List Nat), (∀ c ∈ s, rtByte c = true) →
    unescape (escBody s) = s := by
  intro s
  induction s with
  | nil => intro _; rfl
  | cons c t ih =>
    intro h
    have hc := h c (by simp)
    have hrest := ih (fun x hx => h x (by simp [hx]))
    simp only [rtByte, Bool.or_eq_true, decide_eq_true_eq] at hc
    show unescape (escChunk c ++ escBody t) = c :: t
    by_cases h34 : c = 34
    · subst h34
      rw [show escChunk 34 = [92, 34] from rfl]
      simp only [List.cons_append, List.nil_append]
      rw [unescape_q, hrest]
    · by_cases h92 : c = 92
      · subst h92
        rw [show escChunk 92 = [92, 92] from rfl]
        simp only [List.cons_append, List.nil_append]
        rw [unescape_bs, hrest]
      · by_cases h10 : c = 10
        · subst h10
          rw [show escChunk 10 = [92, 110] from rfl]
          simp only [List.cons_append, List.nil_append]
          rw [unescape_n, hrest]
        · by_cases h13 : c = 13
          · subst h13
            rw [show escChunk 13 = [92, 114] from rfl]
            simp only [List.cons_append, List.nil_append]
            rw [unescape_r, hrest]
          · by_cases h9 : c = 9
            · subst h9
              rw [show escChunk 9 = [92, 116] from rfl]
              simp only [List.cons_append, List.nil_append]
              rw [unescape_t, hrest]
            · have h32 : 32 ≤ c := by
                rcases hc with hc | hc | hc | hc <;> omega
              have hchunk : escChunk c = [c] := by
                unfold escChunk
                rw [if_neg h34, if_neg h92, if_neg (by omega : ¬ c = 8),
                  if_neg (by omega : ¬ c = 12), if_neg h10, if_neg h13, if_neg h9,
                  if_neg (by omega : ¬ c < 32)]
              rw [hchunk]
              simp only [List.cons_append, List.nil_append]
              rw [unescape_plain c _ h92, hrest]

theorem extract_roundtrip (s : List Nat) (hrt : ∀ c ∈ s, rtByte c = true)
    (hlen : s.length ≤ 127) :
    extractString (strB "\x7b\"value\":" ++ esc s ++ strB "\x7d") (strB "value") 128
      = s := by
  rw [show strB "\x7b\"value\":" = [123, 34, 118, 97, 108, 117, 101, 34, 58] from by decide]
  rw [show strB "\x7d" = [125] from by decide]
  rw [show strB "value" = [118, 97, 108, 117, 101] from by decide]
  unfold extractString
  have hjson : ([123, 34, 118, 97, 108, 117, 101, 34, 58] ++ esc s ++ [125])
      = 123 :: 34 :: 118 :: 97 :: 108 :: 117 :: 101 :: 34 :: 58 :: 34 ::
        (escBody s ++ 34 :: [125]) := by
    show _ ++ (34 :: escBody s ++ [34]) ++ [125] = _
    simp
  rw [hjson]
  have hfind : findSub
      (123 :: 34 :: 118 :: 97 :: 108 :: 117 :: 101 :: 34 :: 58 :: 34 ::
        (escBody s ++ 34 :: [125]))
      ([34, 118, 97, 108, 117, 101] ++ [34, 58, 34]) = some 1 := by
    simp [findSub, leadsWith]
  dsimp only
  rw [hfind]
  show extractValue (List.drop 10 _) 128 = s
  rw [show List.drop 10
      (123 :: 34 :: 118 :: 97 :: 108 :: 117 :: 101 :: 34 :: 58 :: 34 ::
        (escBody s ++ 34 :: [125])) = escBody s ++ 34 :: [125] from rfl]
  unfold extractValue
  rw [findClose_escBody s [125]]
  rw [List.take_left]
  rw [unescape_escBody s hrt]
  show s.take 127 = s
  exact List.take_of_length_le hlen

/-- C8 (amended): (1) for every queue of plain-printable metrics (names,
values and tag strings drawn from printable ASCII without quote or
backslash, every `%.10g` number output included) with no tag key equal to
`metric`, a successful `plexus_json_serialize` emits exactly N occurrences
of the substring `"metric":` for N queued metrics — the header contributes
one per point and nothing else can form the pattern; and (2) every string
value whose bytes are either at least 0x20 or one of tab, newline,
carriage return round-trips: `json_append_escaped` escaping followed by
`plexus_json_extract_string` extraction returns the original bytes.
(The tag-key proviso and the control-character restriction are both
necessary: see the counterexample.) -/
theorem C8_serialize_count_and_roundtrip (sid : List Nat) (ms : List Metric)
    (out s : List Nat)
    (hsid : safeStr sid = true)
    (hms : ∀ m ∈ ms, okMetric m = true)
    (hout : serialize sid ms = some out)
    (hrt : ∀ c ∈ s, rtByte c = true)
    (hlen : s.length ≤ 127) :
    cntP metricPat out = ms.length ∧
    extractString (strB "\x7b\"value\":" ++ esc s ++ strB "\x7d")
      (strB "value") 128 = s := by
  have hbody : out = serializeBody sid ms := by
    unfold serialize at hout
    dsimp only at hout
    split at hout
    · exact (Option.some.inj hout).symm
    · exact Option.noConfusion hout
  rw [hbody]
  exact ⟨cntP_serializeBody sid ms hsid hms, extract_roundtrip s hrt hlen⟩

/-- Witness for C8 (amended) at concrete inputs: one plain metric
serializes with exactly one `"metric":` occurrence, and the string
`a\"\n` (a, backslash, quote, newline) survives the escape/extract
round-trip. -/
theorem C8_serialize_count_and_roundtrip_witness :
    serialize (strB "dev-001") [mFix] = some (serializeBody (strB "dev-001") [mFix]) ∧
    (cntP metricPat (serializeBody (strB "dev-001") [mFix])
        = ([mFix] : List Metric).length ∧
     extractString (strB "\x7b\"value\":" ++ esc [97, 92, 34, 10] ++ strB "\x7d")
       (strB "value") 128 = [97, 92, 34, 10]) :=
  ⟨by decide,
   C8_serialize_count_and_roundtrip (strB "dev-001") [mFix]
     (serializeBody (strB "dev-001") [mFix]) [97, 92, 34, 10]
     (by decide) (by decide) (by decide) (by decide) (by decide)⟩

/-- Counterexample to C8 as stated: (1) a single metric carrying a tag
whose key is `metric` serializes to TWO occurrences of `"metric":`, not
one — tag keys are emitted as escaped strings followed by a colon, exactly
the counted pattern; (2) the string value `a` + backspace does not
round-trip: the serializer escapes the backspace to `\b` per RFC 8259,
but `plexus_json_extract_string` decodes only the six escapes
`\" \\ \n \r \t \/` and copies the backslash of `\b` verbatim,
returning `a\b` (bytes 97, 92, 98) instead of the original (97, 8). -/
theorem C8_serialize_count_and_roundtrip_counterexample :
    cntP metricPat (serializeBody (strB "s")
        [⟨strB "t", PVal.num [49], 5, [(metricB, [120])]⟩]) = 2 ∧
    extractString (strB "\x7b\"value\":" ++ esc [97, 8] ++ strB "\x7d")
      (strB "value") 128 = [97, 92, 98] ∧
    ¬ ([97, 92, 98] : List Nat) = [97, 8] :=
  ⟨by decide, by decide, by decide⟩

end Plexus
